import Mathlib

/-!
# AudioTapModule (Windows loopback capture): conversion to 16 kHz mono int16

A shallow embedding of `src/AudioTapModuleWin/AudioTapModule.cpp`.

* `float` and `double` are IEEE 754 binary32 and binary64 with round to nearest, ties to
  even.  A datum is a rational number, an infinity or a NaN (`FP`); every arithmetic
  operation computes the exact rational result and rounds it (`Format.round`).
* Expressions of type `float` are evaluated in `float`, those of type `double` in `double`
  (SSE2 code generation); a conversion whose operand is outside the range of the target
  type is undefined and modelled by `none`.
* `UINT32` values are natural numbers below `2 ^ 32`, with wrapping arithmetic; `int16_t`
  values are integers in `[-32768, 32767]`; `size_t` is 64 bits wide.
* The capture client is a script: one record of API responses per pass of the loop.
-/

namespace AudioTap

/-! ## IEEE 754 arithmetic -/

/-- Value of an IEEE 754 datum.  The sign of a zero is not tracked: the program never
observes it (it divides only by a ratio that is positive or exactly `+0.0`, and an infinite
or NaN quotient is already outside the domain of the conversion to `UINT32`). -/
inductive FP where
  | fin (q : ℚ)
  | inf (neg : Bool)
  | nan
  deriving DecidableEq

/-- A binary floating-point format: precision in bits, least and greatest exponent of a
normal number. -/
structure Format where
  prec : ℕ
  emin : ℤ
  emax : ℤ

/-- The C++ type `float`. -/
def binary32 : Format := ⟨24, -126, 127⟩

/-- The C++ type `double`. -/
def binary64 : Format := ⟨53, -1022, 1023⟩

/-- Nearest integer, ties to the even one. -/
def roundHalfEven (x : ℚ) : ℤ :=
  if x - ⌊x⌋ < 1 / 2 then ⌊x⌋
  else if 1 / 2 < x - ⌊x⌋ then ⌊x⌋ + 1
  else if ⌊x⌋ % 2 = 0 then ⌊x⌋ else ⌊x⌋ + 1

/-- Unit in the last place of the binade of `x` (the subnormal unit below `2 ^ emin`). -/
def Format.ulp (f : Format) (x : ℚ) : ℚ :=
  2 ^ (max (Int.log 2 |x|) f.emin - ((f.prec : ℤ) - 1))

/-- Correct rounding of an exact result: round to nearest, ties to even, with gradual
underflow, and overflow to the infinity of the same sign. -/
def Format.round (f : Format) (x : ℚ) : FP :=
  let y : ℚ := roundHalfEven (x / f.ulp x) * f.ulp x
  if 2 ^ (f.emax + 1) ≤ |y| then FP.inf (decide (x < 0)) else FP.fin y

/-- Floating-point addition. -/
def FP.add (f : Format) : FP → FP → FP
  | .fin a, .fin b => f.round (a + b)
  | .fin _, .inf s => .inf s
  | .inf s, .fin _ => .inf s
  | .inf s, .inf t => if s = t then .inf s else .nan
  | _, _ => .nan

/-- Floating-point multiplication. -/
def FP.mul (f : Format) : FP → FP → FP
  | .fin a, .fin b => f.round (a * b)
  | .fin a, .inf s => if a = 0 then .nan else .inf (s != decide (a < 0))
  | .inf s, .fin b => if b = 0 then .nan else .inf (s != decide (b < 0))
  | .inf s, .inf t => .inf (s != t)
  | _, _ => .nan

/-- Floating-point division. -/
def FP.div (f : Format) : FP → FP → FP
  | .fin a, .fin b =>
    if b = 0 then (if a = 0 then .nan else .inf (decide (a < 0))) else f.round (a / b)
  | .fin _, .inf _ => .fin 0
  | .inf s, .fin b => .inf (s != decide (b < 0))
  | _, _ => .nan

/-- The comparison `a > b` (false as soon as an operand is a NaN). -/
def FP.gt : FP → FP → Bool
  | .fin a, .fin b => decide (b < a)
  | .fin _, .inf s => s
  | .inf s, .fin _ => !s
  | .inf s, .inf t => !s && t
  | _, _ => false

/-- The comparison `a < b`. -/
def FP.lt (a b : FP) : Bool := FP.gt b a

/-- The test `std::isnan(x) || std::isinf(x)` negated. -/
def FP.isFinite : FP → Bool
  | .fin _ => true
  | _ => false

/-- Truncation toward zero. -/
def truncZ (q : ℚ) : ℤ := if 0 ≤ q then ⌊q⌋ else ⌈q⌉

/-- The conversion `(UINT32)x` of a `double`: truncation toward zero; undefined (`none`)
when the truncated value is not a `UINT32` or `x` is not finite. -/
def toUInt32 : FP → Option ℕ
  | .fin q => if -1 < q ∧ q < 2 ^ 32 then some (truncZ q).toNat else none
  | _ => none

/-- The conversion `(int16_t)x` of a `float`: truncation toward zero; undefined (`none`)
when the truncated value is not an `int16_t` or `x` is not finite. -/
def floatToInt16 : FP → Option ℤ
  | .fin q => if -32769 < q ∧ q < 32768 then some (truncZ q) else none
  | _ => none

/-! ## Machine integers -/

/-- The type `int16_t`. -/
def Int16 : Type := { x : ℤ // -32768 ≤ x ∧ x ≤ 32767 }

/-- The conversion `(int16_t)x` of an `int32_t`: reduction modulo `2 ^ 16`. -/
def toInt16 (x : ℤ) : ℤ := (x + 32768) % 65536 - 32768

/-- Product of two `UINT32` values. -/
def mulUInt32 (a b : ℕ) : ℕ := (a * b) % 2 ^ 32

/-- Sum of two `UINT32` values. -/
def addUInt32 (a b : ℕ) : ℕ := (a + b) % 2 ^ 32

/-! ## Constants -/

/-- Output rate (source line 15). -/
def TARGET_SAMPLE_RATE : ℕ := 16000

/-- The success code `S_OK`. -/
def S_OK : ℤ := 0

/-- The code `E_FAIL` (`0x80004005` as a signed 32-bit integer). -/
def E_FAIL : ℤ := -2147467259

/-- The code `E_OUTOFMEMORY` (`0x8007000E` as a signed 32-bit integer). -/
def E_OUTOFMEMORY : ℤ := -2147024882

/-- The test `FAILED(hr)`: the sign bit of the `HRESULT` is set. -/
def FAILED (hr : ℤ) : Bool := decide (hr < 0)

/-- The format tag `WAVE_FORMAT_PCM`. -/
def WAVE_FORMAT_PCM : ℕ := 1

/-- The format tag `WAVE_FORMAT_EXTENSIBLE` (`0xFFFE`). -/
def WAVE_FORMAT_EXTENSIBLE : ℕ := 65534

/-- The GUID `KSDATAFORMAT_SUBTYPE_PCM`, `00000001-0000-0010-8000-00aa00389b71`. -/
def KSDATAFORMAT_SUBTYPE_PCM : ℕ := 0x0000000100000010800000aa00389b71

/-- The GUID `KSDATAFORMAT_SUBTYPE_IEEE_FLOAT`, `00000003-0000-0010-8000-00aa00389b71`. -/
def KSDATAFORMAT_SUBTYPE_IEEE_FLOAT : ℕ := 0x0000000300000010800000aa00389b71

/-- The buffer flag `AUDCLNT_BUFFERFLAGS_SILENT`. -/
def AUDCLNT_BUFFERFLAGS_SILENT : ℕ := 2

/-! ## The converters (source lines 87-214) -/

/-- An emitted `int16_t`; `none` when the C++ program leaves its value undefined (a
conversion outside its domain, a read past the end of the packet). -/
abbrev Sample : Type := Option ℤ

/-- The local `ratio`: `(double)inputSampleRate / TARGET_SAMPLE_RATE` (lines 96, 142, 187
and 258). -/
def ratio (inputSampleRate : ℕ) : FP :=
  FP.div binary64 (.fin inputSampleRate) (.fin TARGET_SAMPLE_RATE)

/-- The local `outputFrames`: `(UINT32)(frames / ratio)` (lines 101, 147, 192). -/
def outputFrames (frames inputSampleRate : ℕ) : Option ℕ :=
  toUInt32 (FP.div binary64 (.fin frames) (ratio inputSampleRate))

/-- The local `inputIndex`: `(UINT32)(i * ratio)` (lines 107, 153, 198). -/
def inputIndex (i inputSampleRate : ℕ) : Option ℕ :=
  toUInt32 (FP.mul binary64 (.fin i) (ratio inputSampleRate))

/-- The clamp of lines 120-121 and 164-165:
`if (mono > 1.0f) mono = 1.0f; if (mono < -1.0f) mono = -1.0f;`. -/
def clamp (mono : FP) : FP :=
  let m := if FP.gt mono (.fin 1) then .fin 1 else mono
  if FP.lt m (.fin (-1)) then .fin (-1) else m

/-- The product `mono * 32767.0f` of lines 122 and 166, before its conversion. -/
def scaled (mono : FP) : FP := FP.mul binary32 mono (.fin 32767)

/-- Lines 164-166: clamp, scale and convert one sample. -/
def quantize (sample : FP) : Sample := floatToInt16 (scaled (clamp sample))

/-- Line 119: `(left + right) * 0.5f`. -/
def downmix (left right : FP) : FP := FP.mul binary32 (FP.add binary32 left right) (.fin (1 / 2))

/-- Line 205: `(int16_t)((left + right) / 2)` on `int32_t` operands. -/
def averageInt16 (left right : Int16) : ℤ := toInt16 (Int.tdiv (left.val + right.val) 2)

/-- Body of the loop of `ConvertStereoFloat32ToMono16` (lines 107-122). -/
def stereoFloatSample (input : List FP) (inputSampleRate i : ℕ) : Sample :=
  match inputIndex i inputSampleRate with
  | none => none
  | some k =>
    match input[mulUInt32 k 2]?, input[addUInt32 (mulUInt32 k 2) 1]? with
    | some left, some right => quantize (downmix left right)
    | _, _ => none

/-- Body of the loop of `ConvertMonoFloat32ToMono16` (lines 153-166). -/
def monoFloatSample (input : List FP) (inputSampleRate i : ℕ) : Sample :=
  match inputIndex i inputSampleRate with
  | none => none
  | some k =>
    match input[k]? with
    | some sample => quantize sample
    | none => none

/-- Body of the loop of `ConvertStereoInt16ToMono16` (lines 198-205). -/
def stereoInt16Sample (input : List Int16) (inputSampleRate i : ℕ) : Sample :=
  match inputIndex i inputSampleRate with
  | none => none
  | some k =>
    match input[mulUInt32 k 2]?, input[addUInt32 (mulUInt32 k 2) 1]? with
    | some left, some right => some (averageInt16 left right)
    | _, _ => none

/-- The samples `ConvertStereoFloat32ToMono16` writes to the output buffer and then to
`std::cout` (lines 88-131); `none` when `outputFrames` is undefined. -/
def ConvertStereoFloat32ToMono16 (input : List FP) (frames inputSampleRate : ℕ) :
    Option (List Sample) :=
  (outputFrames frames inputSampleRate).map fun n =>
    (List.range n).map (stereoFloatSample input inputSampleRate)

/-- The samples `ConvertMonoFloat32ToMono16` writes (lines 134-176). -/
def ConvertMonoFloat32ToMono16 (input : List FP) (frames inputSampleRate : ℕ) :
    Option (List Sample) :=
  (outputFrames frames inputSampleRate).map fun n =>
    (List.range n).map (monoFloatSample input inputSampleRate)

/-- The samples `ConvertStereoInt16ToMono16` writes (lines 179-214). -/
def ConvertStereoInt16ToMono16 (input : List Int16) (frames inputSampleRate : ℕ) :
    Option (List Sample) :=
  (outputFrames frames inputSampleRate).map fun n =>
    (List.range n).map (stereoInt16Sample input inputSampleRate)

/-! ## The capture loop (source lines 216-313) -/

/-- The fields of `WAVEFORMATEX` the program reads, with the `SubFormat` of
`WAVEFORMATEXTENSIBLE`. -/
structure WAVEFORMATEX where
  wFormatTag : ℕ
  nChannels : ℕ
  nSamplesPerSec : ℕ
  wBitsPerSample : ℕ
  SubFormat : ℕ

/-- What `GetBuffer` hands out: the packet memory as seen through `(float*)pData` and
through `(int16_t*)pData`, the frame count and the flags. -/
structure Packet where
  floatData : List FP
  int16Data : List Int16
  numFramesAvailable : ℕ
  flags : ℕ

/-- Responses of the environment during one pass of the `while (true)` loop. -/
structure Iteration where
  pollHr : ℤ
  packetLength : ℕ
  bufferHr : ℤ
  packet : Packet
  silenceAllocated : Bool
  releaseHr : ℤ

/-- One `std::cout.write`: the samples of the conversion buffer, or a run of zero bytes. -/
inductive Chunk where
  | samples (s : List Sample)
  | zeroBytes (count : ℕ)
  deriving DecidableEq

/-- The `int16_t` samples a chunk carries. -/
def Chunk.toSamples : Chunk → List Sample
  | .samples s => s
  | .zeroBytes count => List.replicate (count / 2) (some 0)

/-- The converter the dispatch of lines 274-301 calls. -/
inductive Converter where
  | stereoFloat32
  | monoFloat32
  | stereoInt16
  deriving DecidableEq

/-- The dispatch of lines 274-301; `none` on the branches that only log. -/
def dispatch (pwfx : WAVEFORMATEX) : Option Converter :=
  if pwfx.wFormatTag = WAVE_FORMAT_EXTENSIBLE then
    if pwfx.SubFormat = KSDATAFORMAT_SUBTYPE_IEEE_FLOAT then
      if pwfx.nChannels = 2 then some .stereoFloat32
      else if pwfx.nChannels = 1 then some .monoFloat32
      else none
    else if pwfx.SubFormat = KSDATAFORMAT_SUBTYPE_PCM then
      if pwfx.nChannels = 2 ∧ pwfx.wBitsPerSample = 16 then some .stereoInt16 else none
    else none
  else if pwfx.wFormatTag = WAVE_FORMAT_PCM then
    if pwfx.nChannels = 2 ∧ pwfx.wBitsPerSample = 16 then some .stereoInt16 else none
  else none

/-- The encoding is integer PCM as the program recognises it: the tag
`WAVE_FORMAT_EXTENSIBLE` with the sub-format `KSDATAFORMAT_SUBTYPE_PCM`, or the tag
`WAVE_FORMAT_PCM` (lines 284 and 293). -/
def WAVEFORMATEX.isPCM (w : WAVEFORMATEX) : Prop :=
  (w.wFormatTag = WAVE_FORMAT_EXTENSIBLE ∧ w.SubFormat = KSDATAFORMAT_SUBTYPE_PCM) ∨
    w.wFormatTag = WAVE_FORMAT_PCM

/-- The call a selected converter stands for (lines 278, 280, 286 and 295). -/
def Converter.run (c : Converter) (pwfx : WAVEFORMATEX) (p : Packet) : Option (List Sample) :=
  match c with
  | .stereoFloat32 =>
    ConvertStereoFloat32ToMono16 p.floatData p.numFramesAvailable pwfx.nSamplesPerSec
  | .monoFloat32 =>
    ConvertMonoFloat32ToMono16 p.floatData p.numFramesAvailable pwfx.nSamplesPerSec
  | .stereoInt16 =>
    ConvertStereoInt16ToMono16 p.int16Data p.numFramesAvailable pwfx.nSamplesPerSec

/-- Line 224: `(bufferFrameCount * TARGET_SAMPLE_RATE) / pwfx->nSamplesPerSec + 1` in
`UINT32` arithmetic. -/
def maxOutputFrames (bufferFrameCount nSamplesPerSec : ℕ) : ℕ :=
  addUInt32 (mulUInt32 bufferFrameCount TARGET_SAMPLE_RATE / nSamplesPerSec) 1

/-- Lines 258-260: the byte count of the silence buffer (`size_t` is 64 bits wide). -/
def silenceBytes (numFramesAvailable nSamplesPerSec : ℕ) : Option ℕ :=
  (toUInt32 (FP.div binary64 (.fin numFramesAvailable)
    (FP.div binary64 (.fin nSamplesPerSec) (.fin TARGET_SAMPLE_RATE)))).map
    fun n => (n * 2) % 2 ^ 64

/-- How a pass of the loop ends. -/
inductive Control where
  | continue
  | break
  | undefined
  deriving DecidableEq

/-- Effect of a pass of the loop: what reached `std::cout`, whether `ReleaseBuffer` was
called, and how the pass ends. -/
structure Pass where
  written : List Chunk
  released : Bool
  control : Control
  deriving DecidableEq

/-- Lines 256-302: the branch on the silence flag, then the dispatch.  The result is what
is written and whether control reaches `ReleaseBuffer` (`continue`), leaves the loop
(`break`, line 271) or is undefined (an undefined `outputFrames`, or a conversion that
writes past the `capacity` of the conversion buffer). -/
def handlePacket (pwfx : WAVEFORMATEX) (capacity : ℕ) (p : Packet) (silenceAllocated : Bool) :
    List Chunk × Control :=
  if p.flags &&& AUDCLNT_BUFFERFLAGS_SILENT ≠ 0 then
    match silenceBytes p.numFramesAvailable pwfx.nSamplesPerSec with
    | none => ([], .undefined)
    | some bytes => if silenceAllocated then ([.zeroBytes bytes], .continue) else ([], .break)
  else
    match dispatch pwfx with
    | none => ([], .continue)
    | some c =>
      match c.run pwfx p with
      | none => ([], .undefined)
      | some s => if s.length ≤ capacity then ([.samples s], .continue) else ([], .undefined)

/-- Body of the `while (true)` loop (lines 234-308). -/
def loopBody (pwfx : WAVEFORMATEX) (capacity : ℕ) (it : Iteration) : Pass :=
  if FAILED it.pollHr then ⟨[], false, .break⟩
  else if it.packetLength = 0 then ⟨[], false, .continue⟩
  else if FAILED it.bufferHr then ⟨[], false, .break⟩
  else
    match handlePacket pwfx capacity it.packet it.silenceAllocated with
    | (w, .continue) => if FAILED it.releaseHr then ⟨w, true, .break⟩ else ⟨w, true, .continue⟩
    | (w, c) => ⟨w, false, c⟩

/-- How a call ends: with a value, still running when the script is exhausted, or
undefined. -/
inductive Outcome (α : Type) where
  | returned (value : α)
  | running
  | undefined
  deriving DecidableEq

/-- The `while (true)` loop with the two statements after it (lines 233-312): the chunks
written, the number of passes started and the outcome. -/
def pump (pwfx : WAVEFORMATEX) (capacity : ℕ) : List Iteration → List Chunk × ℕ × Outcome ℤ
  | [] => ([], 0, .running)
  | it :: rest =>
    match loopBody pwfx capacity it with
    | ⟨w, _, .continue⟩ =>
      let r := pump pwfx capacity rest
      (w ++ r.1, r.2.1 + 1, r.2.2)
    | ⟨w, _, .break⟩ => (w, 1, .returned S_OK)
    | ⟨w, _, .undefined⟩ => (w, 1, .undefined)

/-- State of an `AudioCapture` object the capture loop reads. -/
structure AudioCapture where
  pwfx : WAVEFORMATEX
  bufferFrameCount : ℕ
  initialized : Bool

/-- The method `CaptureLoop` (lines 216-313).  `bufferAllocated` tells whether
`new int16_t[maxOutputFrames]` succeeds; the division of line 224 is undefined for a zero
sample rate. -/
def CaptureLoop (self : AudioCapture) (bufferAllocated : Bool) (script : List Iteration) :
    List Chunk × ℕ × Outcome ℤ :=
  if !self.initialized then ([], 0, .returned E_FAIL)
  else if self.pwfx.nSamplesPerSec = 0 then ([], 0, .undefined)
  else if !bufferAllocated then ([], 0, .returned E_OUTOFMEMORY)
  else pump self.pwfx (maxOutputFrames self.bufferFrameCount self.pwfx.nSamplesPerSec) script

/-- Everything the process obtains from its environment: the `HRESULT` of the first failing
call of `Initialize` (or a success code), the mix format and buffer size it obtains, the
`HRESULT` of `IAudioClient::Start`, and the responses of the capture client. -/
structure Environment where
  initHr : ℤ
  pwfx : WAVEFORMATEX
  bufferFrameCount : ℕ
  startHr : ℤ
  bufferAllocated : Bool
  script : List Iteration

/-- The method `Initialize` (lines 37-79): its result and the object it leaves. -/
def Initialize (env : Environment) : ℤ × AudioCapture :=
  if FAILED env.initHr then (env.initHr, ⟨env.pwfx, 0, false⟩)
  else (S_OK, ⟨env.pwfx, env.bufferFrameCount, true⟩)

/-- The method `StartCapture` (lines 81-85). -/
def StartCapture (self : AudioCapture) (env : Environment) : ℤ :=
  if !self.initialized then E_FAIL else env.startHr

/-- The function `main` (lines 354-377): what reached `std::cout` and the exit code. -/
def main (env : Environment) : List Chunk × Outcome ℕ :=
  let init := Initialize env
  if FAILED init.1 then ([], .returned 1)
  else if FAILED (StartCapture init.2 env) then ([], .returned 1)
  else
    match CaptureLoop init.2 env.bufferAllocated env.script with
    | (w, _, .returned _) => (w, .returned 0)
    | (w, _, .running) => (w, .running)
    | (w, _, .undefined) => (w, .undefined)

/-! ## The formulas of the specification -/

/-- Output frame count as the specification states it: `floor(F * 16000 / R)`. -/
def specOutputFrames (frames inputSampleRate : ℕ) : ℕ :=
  frames * TARGET_SAMPLE_RATE / inputSampleRate

/-- Source index as the specification states it: `floor(i * R / 16000)`. -/
def specInputIndex (i inputSampleRate : ℕ) : ℕ :=
  i * inputSampleRate / TARGET_SAMPLE_RATE

/-- The format tag `WAVE_FORMAT_IEEE_FLOAT` of the Windows headers (`mmreg.h`), the plain
tag of IEEE float samples.  The program never compares a tag with it. -/
def WAVE_FORMAT_IEEE_FLOAT : ℕ := 3

/-- The encoding is float32 as the specification names it: IEEE float samples of 32 bits,
announced by the plain tag `WAVE_FORMAT_IEEE_FLOAT` or by the tag `WAVE_FORMAT_EXTENSIBLE`
with the sub-format `KSDATAFORMAT_SUBTYPE_IEEE_FLOAT`. -/
def WAVEFORMATEX.isFloat32 (w : WAVEFORMATEX) : Prop :=
  (w.wFormatTag = WAVE_FORMAT_IEEE_FLOAT ∨
    (w.wFormatTag = WAVE_FORMAT_EXTENSIBLE ∧ w.SubFormat = KSDATAFORMAT_SUBTYPE_IEEE_FLOAT)) ∧
    w.wBitsPerSample = 32

instance (w : WAVEFORMATEX) : Decidable w.isFloat32 := by
  unfold WAVEFORMATEX.isFloat32
  infer_instance

/-! ## Formats, packets and runs of the evaluations -/

/-- The packet of the failing run of C10: 384000 stereo `float` frames of zeros, not
flagged silent. -/
def overflowPacket : Packet :=
  ⟨List.replicate 768000 (.fin 0), List.replicate 1536000 ⟨0, by decide⟩, 384000, 0⟩

/-- The format of the failing run of C10: 384000 Hz, stereo, `float`. -/
def overflowFormat : WAVEFORMATEX :=
  ⟨WAVE_FORMAT_EXTENSIBLE, 2, 384000, 32, KSDATAFORMAT_SUBTYPE_IEEE_FLOAT⟩

/-- The native format 16000 Hz, stereo, 16-bit integer PCM. -/
def stereoInt16Format : WAVEFORMATEX := ⟨WAVE_FORMAT_PCM, 2, 16000, 16, 0⟩

/-- A stereo `float` packet whose frames are all `(left, right)`. -/
def constantStereo (frames : ℕ) (left right : FP) : List FP :=
  (List.range (2 * frames)).map fun t => if t % 2 = 0 then left else right

/-- The `float` `2^-15 + 2^-30`, bit pattern `0x38000100`. -/
def tinySample : ℚ := 32769 / 1073741824

/-- A format the dispatch does not support: 48000 Hz, six channels, `float`. -/
def surroundFormat : WAVEFORMATEX :=
  ⟨WAVE_FORMAT_EXTENSIBLE, 6, 48000, 32, KSDATAFORMAT_SUBTYPE_IEEE_FLOAT⟩

/-- The native format 16001 Hz, stereo, `float`. -/
def oddRateFormat : WAVEFORMATEX :=
  ⟨WAVE_FORMAT_EXTENSIBLE, 2, 16001, 32, KSDATAFORMAT_SUBTYPE_IEEE_FLOAT⟩

/-- A silent packet of `frames` frames of `channels` 32-bit samples; its memory is all
zeros. -/
def silentPacket (frames channels : ℕ) : Packet :=
  ⟨List.replicate (frames * channels) (.fin 0),
    List.replicate (2 * (frames * channels)) ⟨0, by decide⟩, frames,
    AUDCLNT_BUFFERFLAGS_SILENT⟩

/-- The native format 16000 Hz, mono, 16-bit integer PCM. -/
def monoInt16Format : WAVEFORMATEX := ⟨WAVE_FORMAT_PCM, 1, 16000, 16, 0⟩

/-- A packet of three mono 16-bit frames `1, 2, 3`, not flagged silent.  Read through
`float*` its first four bytes are the subnormal `0x00020001`. -/
def monoInt16Packet : Packet :=
  ⟨[.fin (131073 / 2 ^ 149)], [⟨1, by decide⟩, ⟨2, by decide⟩, ⟨3, by decide⟩], 3, 0⟩

/-- A packet of one stereo 16-bit frame `(5, 7)`, not flagged silent.  Read through
`float*` its four bytes are the subnormal `0x00070005`. -/
def stereoInt16Packet : Packet :=
  ⟨[.fin (458757 / 2 ^ 149)], [⟨5, by decide⟩, ⟨7, by decide⟩], 1, 0⟩

/-- A float32 format announced by the plain tag `WAVE_FORMAT_IEEE_FLOAT`: 48000 Hz, stereo,
32 bits per sample. -/
def plainFloatFormat : WAVEFORMATEX := ⟨WAVE_FORMAT_IEEE_FLOAT, 2, 48000, 32, 0⟩

/-- An extensible format of 64-bit IEEE floats: 48000 Hz, stereo. -/
def doubleFormat : WAVEFORMATEX :=
  ⟨WAVE_FORMAT_EXTENSIBLE, 2, 48000, 64, KSDATAFORMAT_SUBTYPE_IEEE_FLOAT⟩

/-- A packet of one stereo `float` frame `(0.5, -0.5)`, not flagged silent.  Read through
`int16_t*` its eight bytes `0x3F000000`, `0xBF000000` are `0, 16128, 0, -16640`. -/
def halfFramePacket : Packet :=
  ⟨[.fin (1 / 2), .fin (-(1 / 2))],
    [⟨0, by decide⟩, ⟨16128, by decide⟩, ⟨0, by decide⟩, ⟨-16640, by decide⟩], 1, 0⟩

/-- A run in which the first `GetNextPacketSize` fails with `E_FAIL`; the script holds a
further, healthy pass. -/
def pollFailureRun : Environment :=
  ⟨S_OK, stereoInt16Format, 16000, S_OK, true,
    [⟨E_FAIL, 0, S_OK, stereoInt16Packet, true, S_OK⟩,
     ⟨S_OK, 1, S_OK, stereoInt16Packet, true, S_OK⟩]⟩

/-- A run in which the first `GetBuffer` fails with `E_FAIL`. -/
def acquireFailureRun : Environment :=
  ⟨S_OK, stereoInt16Format, 16000, S_OK, true,
    [⟨S_OK, 1, E_FAIL, stereoInt16Packet, true, S_OK⟩,
     ⟨S_OK, 1, S_OK, stereoInt16Packet, true, S_OK⟩]⟩

/-- A run in which the first `ReleaseBuffer` fails with `E_FAIL`. -/
def releaseFailureRun : Environment :=
  ⟨S_OK, stereoInt16Format, 16000, S_OK, true,
    [⟨S_OK, 1, S_OK, stereoInt16Packet, true, E_FAIL⟩,
     ⟨S_OK, 1, S_OK, stereoInt16Packet, true, S_OK⟩]⟩

/-! ## Rounding -/

theorem roundHalfEven_ge_floor (x : ℚ) : ⌊x⌋ ≤ roundHalfEven x := by
  unfold roundHalfEven
  split_ifs <;> omega

theorem le_roundHalfEven {x : ℚ} {n : ℤ} (h : (n : ℚ) ≤ x) : n ≤ roundHalfEven x :=
  le_trans (Int.le_floor.mpr h) (roundHalfEven_ge_floor x)

theorem roundHalfEven_le {x : ℚ} {n : ℤ} (h : x ≤ (n : ℚ)) : roundHalfEven x ≤ n := by
  have hfl : (⌊x⌋ : ℚ) ≤ x := Int.floor_le x
  unfold roundHalfEven
  have key : ¬ (x - ⌊x⌋ < 1 / 2) → ⌊x⌋ + 1 ≤ n := by
    intro hd
    have h1 : (⌊x⌋ : ℚ) < n := by linarith
    have h2 : ⌊x⌋ < n := by exact_mod_cast h1
    omega
  have hle : ⌊x⌋ ≤ n := by
    have h1 : (⌊x⌋ : ℚ) ≤ n := le_trans hfl h
    exact_mod_cast h1
  split_ifs with h1 h2 h3
  · exact hle
  · exact key h1
  · exact hle
  · exact key h1

theorem abs_roundHalfEven_sub_le (x : ℚ) : |(roundHalfEven x : ℚ) - x| ≤ 1 / 2 := by
  have hfl : (⌊x⌋ : ℚ) ≤ x := Int.floor_le x
  have hlt : x < (⌊x⌋ : ℚ) + 1 := Int.lt_floor_add_one x
  unfold roundHalfEven
  rw [abs_le]
  split_ifs with h1 h2 h3
  · constructor <;> linarith
  · push_cast; constructor <;> linarith
  · constructor <;> linarith
  · push_cast; constructor <;> linarith

theorem Format.ulp_pos (f : Format) (x : ℚ) : 0 < f.ulp x := by
  unfold Format.ulp
  positivity

/-- Rounding stays between any two points of the grid of the operand, and does not
overflow when these are within the range of the format. -/
theorem Format.round_between (f : Format) (x : ℚ) (M₁ M₂ : ℤ)
    (h₁ : (M₁ : ℚ) * f.ulp x ≤ x) (h₂ : x ≤ (M₂ : ℚ) * f.ulp x)
    (hb₁ : -(2 : ℚ) ^ (f.emax + 1) < (M₁ : ℚ) * f.ulp x)
    (hb₂ : (M₂ : ℚ) * f.ulp x < 2 ^ (f.emax + 1)) :
    ∃ z : ℚ, f.round x = FP.fin z ∧ (M₁ : ℚ) * f.ulp x ≤ z ∧ z ≤ (M₂ : ℚ) * f.ulp x := by
  have hu := f.ulp_pos x
  have hlo : M₁ ≤ roundHalfEven (x / f.ulp x) := le_roundHalfEven ((le_div_iff₀ hu).mpr h₁)
  have hhi : roundHalfEven (x / f.ulp x) ≤ M₂ := roundHalfEven_le ((div_le_iff₀ hu).mpr h₂)
  have hlo2 : (M₁ : ℚ) * f.ulp x ≤ roundHalfEven (x / f.ulp x) * f.ulp x :=
    mul_le_mul_of_nonneg_right (by exact_mod_cast hlo) hu.le
  have hhi2 : (roundHalfEven (x / f.ulp x) : ℚ) * f.ulp x ≤ (M₂ : ℚ) * f.ulp x :=
    mul_le_mul_of_nonneg_right (by exact_mod_cast hhi) hu.le
  refine ⟨roundHalfEven (x / f.ulp x) * f.ulp x, ?_, hlo2, hhi2⟩
  unfold Format.round
  simp only
  rw [if_neg]
  rw [not_le, abs_lt]
  constructor <;> linarith

theorem Format.ulp_exp_le (f : Format) (x : ℚ) (k : ℤ) (hx : |x| < 2 ^ k) (hk : x = 0 → 1 ≤ k)
    (he : f.emin < k) : max (Int.log 2 |x|) f.emin - ((f.prec : ℤ) - 1) ≤ k - f.prec := by
  have hlog : Int.log 2 |x| ≤ k - 1 := by
    rcases eq_or_ne x 0 with h0 | hne
    · have := hk h0
      subst h0
      simp only [abs_zero, Int.log_zero_right]
      omega
    · have hpos : 0 < |x| := abs_pos.mpr hne
      have := (Int.lt_zpow_iff_log_lt (b := 2) (by norm_num) hpos).mp (by exact_mod_cast hx)
      omega
  have : max (Int.log 2 |x|) f.emin ≤ k - 1 := max_le hlog (by omega)
  omega

/-- A dyadic number whose exponent is at least that of the unit lies on the grid. -/
theorem Format.exists_grid (f : Format) (x : ℚ) (N s : ℤ)
    (hs : max (Int.log 2 |x|) f.emin - ((f.prec : ℤ) - 1) ≤ s) :
    ∃ M : ℤ, (N : ℚ) * 2 ^ s = (M : ℚ) * f.ulp x := by
  refine ⟨N * 2 ^ (s - (max (Int.log 2 |x|) f.emin - ((f.prec : ℤ) - 1))).toNat, ?_⟩
  unfold Format.ulp
  set t := max (Int.log 2 |x|) f.emin - ((f.prec : ℤ) - 1) with ht
  have h2 : (2 : ℚ) ^ s = 2 ^ ((s - t).toNat : ℤ) * 2 ^ t := by
    rw [← zpow_add₀ (by norm_num : (2 : ℚ) ≠ 0)]
    congr 1
    rw [Int.toNat_of_nonneg (by omega)]
    ring
  rw [h2]
  push_cast
  rw [zpow_natCast]
  ring

/-- Rounding an operand below `2 ^ k` in magnitude stays between any two multiples of
`2 ^ (k - prec)` that enclose it. -/
theorem Format.round_bounds (f : Format) (x lo hi : ℚ) (k Nlo Nhi : ℤ)
    (hx : |x| < 2 ^ k) (hk : x = 0 → 1 ≤ k) (he : f.emin < k)
    (hlo : lo = (Nlo : ℚ) * 2 ^ (k - f.prec)) (hhi : hi = (Nhi : ℚ) * 2 ^ (k - f.prec))
    (h₁ : lo ≤ x) (h₂ : x ≤ hi)
    (hb₁ : -(2 : ℚ) ^ (f.emax + 1) < lo) (hb₂ : hi < 2 ^ (f.emax + 1)) :
    ∃ z : ℚ, f.round x = FP.fin z ∧ lo ≤ z ∧ z ≤ hi := by
  have hexp := f.ulp_exp_le x k hx hk he
  obtain ⟨M₁, hM₁⟩ := f.exists_grid x Nlo (k - f.prec) hexp
  obtain ⟨M₂, hM₂⟩ := f.exists_grid x Nhi (k - f.prec) hexp
  rw [hM₁] at hlo
  rw [hM₂] at hhi
  subst hlo hhi
  exact f.round_between x M₁ M₂ h₁ h₂ hb₁ hb₂

theorem Format.round_zero (f : Format) : f.round 0 = FP.fin 0 := by
  unfold Format.round
  simp only [zero_div]
  have h0 : roundHalfEven 0 = 0 := by
    have := le_roundHalfEven (x := 0) (n := 0) (by simp)
    have := roundHalfEven_le (x := 0) (n := 0) (by simp)
    omega
  rw [h0]
  simp only [Int.cast_zero, zero_mul, abs_zero]
  rw [if_neg]
  rw [not_le]
  positivity

/-- A dyadic number with a significand of at most `prec` bits, inside the exponent range,
is its own rounding. -/
theorem Format.round_dyadic (f : Format) (N s : ℤ) (hN : |(N : ℚ)| < 2 ^ f.prec)
    (hs : f.emin - ((f.prec : ℤ) - 1) ≤ s) (hmax : |(N : ℚ) * 2 ^ s| < 2 ^ (f.emax + 1)) :
    f.round ((N : ℚ) * 2 ^ s) = FP.fin ((N : ℚ) * 2 ^ s) := by
  rcases eq_or_ne N 0 with h0 | hne
  · subst h0
    simp only [Int.cast_zero, zero_mul]
    exact f.round_zero
  · have h2s : (0 : ℚ) < 2 ^ s := by positivity
    have hx0 : (N : ℚ) * 2 ^ s ≠ 0 := by
      apply mul_ne_zero _ h2s.ne'
      exact_mod_cast hne
    have hx : |(N : ℚ) * 2 ^ s| < 2 ^ (s + f.prec) := by
      rw [abs_mul, abs_of_pos h2s, zpow_add₀ (by norm_num : (2 : ℚ) ≠ 0), mul_comm]
      apply mul_lt_mul_of_pos_left _ h2s
      rw [zpow_natCast]
      exact hN
    obtain ⟨z, hz, hz1, hz2⟩ := f.round_bounds ((N : ℚ) * 2 ^ s) ((N : ℚ) * 2 ^ s)
      ((N : ℚ) * 2 ^ s) (s + f.prec) N N hx (fun h => absurd h hx0) (by omega)
      (by rw [add_sub_cancel_right]) (by rw [add_sub_cancel_right]) le_rfl le_rfl
      (by have := (abs_lt.mp hmax).1; linarith) (abs_lt.mp hmax).2
    rw [hz, le_antisymm hz2 hz1]

/-- A natural number below `2 ^ prec` is its own rounding. -/
theorem Format.round_natCast (f : Format) (n : ℕ) (hn : n < 2 ^ f.prec)
    (he : f.emin - ((f.prec : ℤ) - 1) ≤ 0) (hmax : (f.prec : ℤ) ≤ f.emax + 1) :
    f.round (n : ℚ) = FP.fin (n : ℚ) := by
  have hnq : (n : ℚ) < 2 ^ f.prec := by exact_mod_cast hn
  have h := f.round_dyadic (n : ℤ) 0 (by
      rw [Int.cast_natCast, abs_of_nonneg (by positivity)]
      exact hnq) he (by
      rw [Int.cast_natCast, zpow_zero, mul_one, abs_of_nonneg (by positivity)]
      refine lt_of_lt_of_le hnq ?_
      rw [← zpow_natCast]
      exact zpow_le_zpow_right₀ (by norm_num) hmax)
  simpa using h

/-- Relative error of the rounding of a positive operand in the normal range. -/
theorem Format.round_rel (f : Format) (x : ℚ) (hp : 1 ≤ f.prec) (hmin : 2 ^ f.emin ≤ x)
    (hmax : x ≤ 2 ^ f.emax) :
    ∃ z : ℚ, f.round x = FP.fin z ∧ |z - x| ≤ x / 2 ^ f.prec := by
  have hx : 0 < x := lt_of_lt_of_le (by positivity) hmin
  have habs : |x| = x := abs_of_pos hx
  have hlog : f.emin ≤ Int.log 2 |x| := by
    rw [habs]
    exact (Int.zpow_le_iff_le_log (b := 2) (by norm_num) hx).mp (by exact_mod_cast hmin)
  have hu : f.ulp x = 2 ^ (Int.log 2 x - ((f.prec : ℤ) - 1)) := by
    unfold Format.ulp
    rw [max_eq_left hlog, habs]
  have hupos := f.ulp_pos x
  have h2e : (2 : ℚ) ^ Int.log 2 x ≤ x := by
    have := Int.zpow_log_le_self (b := 2) (r := x) (by norm_num) hx
    exact_mod_cast this
  have hhalf : f.ulp x / 2 ≤ x / 2 ^ f.prec := by
    rw [hu, zpow_sub₀ (by norm_num : (2 : ℚ) ≠ 0), zpow_sub₀ (by norm_num : (2 : ℚ) ≠ 0),
      zpow_natCast, zpow_one]
    have h2p : (0 : ℚ) < 2 ^ f.prec := by positivity
    rw [div_div_eq_mul_div, div_div, div_le_div_iff₀ (by positivity) h2p]
    nlinarith [h2e, h2p]
  have herr : |(roundHalfEven (x / f.ulp x) : ℚ) * f.ulp x - x| ≤ f.ulp x / 2 := by
    have h := abs_roundHalfEven_sub_le (x / f.ulp x)
    have heq : (roundHalfEven (x / f.ulp x) : ℚ) * f.ulp x - x =
        ((roundHalfEven (x / f.ulp x) : ℚ) - x / f.ulp x) * f.ulp x := by
      field_simp
    rw [heq, abs_mul, abs_of_pos hupos]
    calc |(roundHalfEven (x / f.ulp x) : ℚ) - x / f.ulp x| * f.ulp x
        ≤ 1 / 2 * f.ulp x := mul_le_mul_of_nonneg_right h hupos.le
      _ = f.ulp x / 2 := by ring
  refine ⟨roundHalfEven (x / f.ulp x) * f.ulp x, ?_, le_trans herr hhalf⟩
  unfold Format.round
  simp only
  rw [if_neg]
  rw [not_le]
  have h1 := (abs_le.mp (le_trans herr hhalf))
  have hle : x / 2 ^ f.prec ≤ x / 2 := by
    apply div_le_div_of_nonneg_left hx.le (by norm_num)
    calc (2 : ℚ) = 2 ^ 1 := by norm_num
      _ ≤ 2 ^ f.prec := pow_le_pow_right₀ (by norm_num) hp
  have hpow : (2 : ℚ) ^ (f.emax + 1) = 2 * 2 ^ f.emax := by
    rw [zpow_add₀ (by norm_num : (2 : ℚ) ≠ 0), zpow_one]; ring
  rw [abs_lt, hpow]
  constructor <;> linarith [h1.1, h1.2]

/-! ## The ratio, the frame count and the source index -/

theorem binary64_prec : binary64.prec = 53 := rfl

theorem binary64_emin : binary64.emin = -1022 := rfl

theorem binary64_emax : binary64.emax = 1023 := rfl

theorem binary32_prec : binary32.prec = 24 := rfl

theorem binary32_emin : binary32.emin = -126 := rfl

theorem binary32_emax : binary32.emax = 127 := rfl

theorem ratio_eq (R : ℕ) : ratio R = binary64.round ((R : ℚ) / 16000) := by
  simp [ratio, FP.div, TARGET_SAMPLE_RATE]

/-- A `UINT32` or a product of two is converted to `double` without rounding. -/
theorem round64_natCast (n : ℕ) (hn : n < 2 ^ 53) : binary64.round (n : ℚ) = FP.fin (n : ℚ) :=
  binary64.round_natCast n (by rw [binary64_prec]; exact hn)
    (by rw [binary64_prec, binary64_emin]; norm_num)
    (by rw [binary64_prec, binary64_emax]; norm_num)

/-- Relative error of a `double` operation whose exact result lies in `[2^-64, 2^64]`. -/
theorem round64_rel (x : ℚ) (h₁ : 1 / 2 ^ 64 ≤ x) (h₂ : x ≤ 2 ^ 64) :
    ∃ z : ℚ, binary64.round x = FP.fin z ∧ |z - x| ≤ x / 2 ^ 53 := by
  have h := binary64.round_rel x (by rw [binary64_prec]; norm_num)
    (by
      rw [binary64_emin]
      refine le_trans ?_ h₁
      rw [one_div, ← zpow_natCast, ← zpow_neg]
      exact zpow_le_zpow_right₀ (by norm_num) (by norm_num))
    (by
      rw [binary64_emax]
      refine le_trans h₂ ?_
      rw [← zpow_natCast]
      exact zpow_le_zpow_right₀ (by norm_num) (by norm_num))
  rw [binary64_prec] at h
  exact h

/-- The ratio of a positive rate is finite and within relative error `2^-53` of
`R / 16000`. -/
theorem ratio_rel (R : ℕ) (hR0 : 0 < R) (hR : R < 2 ^ 32) :
    ∃ r : ℚ, ratio R = FP.fin r ∧ (R : ℚ) * (1 - 1 / 2 ^ 53) ≤ 16000 * r ∧
      16000 * r ≤ (R : ℚ) * (1 + 1 / 2 ^ 53) := by
  have h1 : (1 : ℚ) ≤ R := by exact_mod_cast hR0
  have h2 : (R : ℚ) < 2 ^ 32 := by exact_mod_cast hR
  obtain ⟨r, hr, herr⟩ := round64_rel ((R : ℚ) / 16000)
    (by rw [le_div_iff₀ (by norm_num)]; norm_num; linarith)
    (by rw [div_le_iff₀ (by norm_num)]; norm_num; linarith)
  refine ⟨r, by rw [ratio_eq, hr], ?_, ?_⟩
  · have := (abs_le.mp herr).1
    linarith
  · have := (abs_le.mp herr).2
    linarith

/-- The quotient `frames / ratio` is finite and within relative error `2^-53`. -/
theorem quotient_rel (F : ℕ) (r : ℚ) (hF0 : 0 < F) (hF : F < 2 ^ 32) (hr₁ : 1 / 2 ^ 15 ≤ r)
    (hr₂ : r ≤ 2 ^ 20) :
    ∃ q : ℚ, FP.div binary64 (.fin F) (.fin r) = FP.fin q ∧
      (F : ℚ) * (1 - 1 / 2 ^ 53) ≤ q * r ∧ q * r ≤ (F : ℚ) * (1 + 1 / 2 ^ 53) := by
  have hr0 : 0 < r := lt_of_lt_of_le (by norm_num) hr₁
  have h1 : (1 : ℚ) ≤ F := by exact_mod_cast hF0
  have h2 : (F : ℚ) < 2 ^ 32 := by exact_mod_cast hF
  obtain ⟨q, hq, herr⟩ := round64_rel ((F : ℚ) / r)
    (by
      rw [le_div_iff₀ hr0]
      calc 1 / 2 ^ 64 * r ≤ 1 / 2 ^ 64 * 2 ^ 20 := by
            apply mul_le_mul_of_nonneg_left hr₂ (by norm_num)
        _ ≤ 1 := by norm_num
        _ ≤ F := h1)
    (by
      rw [div_le_iff₀ hr0]
      calc (F : ℚ) ≤ 2 ^ 32 := h2.le
        _ ≤ 2 ^ 64 * (1 / 2 ^ 15) := by norm_num
        _ ≤ 2 ^ 64 * r := by apply mul_le_mul_of_nonneg_left hr₁ (by norm_num))
  have hxr : (F : ℚ) / r * r = F := div_mul_cancel₀ _ hr0.ne'
  have hlo : ((F : ℚ) / r - (F : ℚ) / r / 2 ^ 53) * r ≤ q * r :=
    mul_le_mul_of_nonneg_right (by have := (abs_le.mp herr).1; linarith) hr0.le
  have hhi : q * r ≤ ((F : ℚ) / r + (F : ℚ) / r / 2 ^ 53) * r :=
    mul_le_mul_of_nonneg_right (by have := (abs_le.mp herr).2; linarith) hr0.le
  have e1 : ((F : ℚ) / r - (F : ℚ) / r / 2 ^ 53) * r = (F : ℚ) * (1 - 1 / 2 ^ 53) := by
    field_simp
    ring
  have e2 : ((F : ℚ) / r + (F : ℚ) / r / 2 ^ 53) * r = (F : ℚ) * (1 + 1 / 2 ^ 53) := by
    field_simp
    ring
  refine ⟨q, ?_, by rw [← e1]; exact hlo, by rw [← e2]; exact hhi⟩
  simp only [FP.div]
  rw [if_neg hr0.ne', hq]

theorem truncZ_of_nonneg {q : ℚ} (h : 0 ≤ q) : truncZ q = ⌊q⌋ := by
  unfold truncZ
  rw [if_pos h]

theorem toUInt32_fin {q : ℚ} (h₀ : 0 ≤ q) (h₁ : q < 2 ^ 32) :
    toUInt32 (.fin q) = some ⌊q⌋.toNat := by
  simp only [toUInt32]
  rw [if_pos ⟨by linarith, h₁⟩, truncZ_of_nonneg h₀]

theorem toUInt32_natCast (n : ℕ) (h : n < 2 ^ 32) : toUInt32 (.fin (n : ℚ)) = some n := by
  rw [toUInt32_fin (by positivity) (by exact_mod_cast h)]
  simp

/-- An empty packet yields no output frame. -/
theorem outputFrames_zero (R : ℕ) (hR0 : 0 < R) (hR : R < 2 ^ 32) : outputFrames 0 R = some 0 := by
  obtain ⟨r, hr, h1, -⟩ := ratio_rel R hR0 hR
  have hr0 : r ≠ 0 := by
    have h2 : (1 : ℚ) ≤ R := by exact_mod_cast hR0
    intro h
    rw [h] at h1
    norm_num at h1
    linarith
  unfold outputFrames
  rw [hr]
  simp only [FP.div, Nat.cast_zero, zero_div]
  rw [if_neg hr0, Format.round_zero]
  exact toUInt32_natCast 0 (by norm_num)

/-- The two `double` values behind `outputFrames` with their error bounds. -/
theorem outputFrames_data (F R : ℕ) (hR0 : 0 < R) (hR : R < 2 ^ 32) (hF0 : 0 < F)
    (hF : F < 2 ^ 32) :
    ∃ r q : ℚ, ratio R = FP.fin r ∧ outputFrames F R = toUInt32 (.fin q) ∧
      0 < r ∧ 0 < q ∧ 1 / 2 ^ 15 ≤ r ∧
      (R : ℚ) * (1 - 1 / 2 ^ 53) ≤ 16000 * r ∧ 16000 * r ≤ (R : ℚ) * (1 + 1 / 2 ^ 53) ∧
      (F : ℚ) * (1 - 1 / 2 ^ 53) ≤ q * r ∧ q * r ≤ (F : ℚ) * (1 + 1 / 2 ^ 53) ∧
      binary64.round ((F : ℚ) / r) = FP.fin q := by
  obtain ⟨r, hr, hr1, hr2⟩ := ratio_rel R hR0 hR
  have h1 : (1 : ℚ) ≤ R := by exact_mod_cast hR0
  have h2 : (R : ℚ) < 2 ^ 32 := by exact_mod_cast hR
  have h3 : (1 : ℚ) ≤ F := by exact_mod_cast hF0
  have hrlo : 1 / 2 ^ 15 ≤ r := by norm_num at hr1 ⊢; linarith
  have hrhi : r ≤ 2 ^ 20 := by norm_num at hr2 ⊢; linarith
  have hr0 : 0 < r := lt_of_lt_of_le (by norm_num) hrlo
  obtain ⟨q, hq, hq1, hq2⟩ := quotient_rel F r hF0 hF hrlo hrhi
  have hq0 : 0 < q := by
    by_contra hneg
    have : q * r ≤ 0 := mul_nonpos_of_nonpos_of_nonneg (not_lt.mp hneg) hr0.le
    norm_num at hq1
    linarith
  have hround : binary64.round ((F : ℚ) / r) = FP.fin q := by
    simp only [FP.div] at hq
    rw [if_neg hr0.ne'] at hq
    exact hq
  refine ⟨r, q, hr, ?_, hr0, hq0, hrlo, hr1, hr2, hq1, hq2, hround⟩
  unfold outputFrames
  rw [hr, hq]

/-- The frame count the converters compute is `floor(F * 16000 / R)` or one less. -/
theorem outputFrames_spec (F R : ℕ) (hR0 : 0 < R) (hR : R < 2 ^ 32) (hF : F < 2 ^ 32)
    (hQ : specOutputFrames F R < 2 ^ 32) :
    ∃ n : ℕ, outputFrames F R = some n ∧ n ≤ specOutputFrames F R ∧
      specOutputFrames F R ≤ n + 1 := by
  rcases Nat.eq_zero_or_pos F with hF0 | hF0
  · subst hF0
    exact ⟨0, outputFrames_zero R hR0 hR, Nat.zero_le _, by simp [specOutputFrames]⟩
  obtain ⟨r, q, -, hout, hr0, hq0, -, hr1, hr2, hq1, hq2, -⟩ :=
    outputFrames_data F R hR0 hR hF0 hF
  unfold specOutputFrames TARGET_SAMPLE_RATE at *
  set n0 := F * 16000 / R with hn0
  have hA : (F : ℚ) * 16000 < 70368744177664 := by
    have : (F : ℚ) < 4294967296 := by exact_mod_cast hF
    linarith
  have hdiv1 : n0 * R ≤ F * 16000 := Nat.div_mul_le_self _ _
  have hdiv2 : F * 16000 + 1 ≤ (n0 + 1) * R := by
    have := Nat.lt_succ_iff.mpr (le_refl n0)
    have h := (Nat.div_lt_iff_lt_mul hR0).mp (Nat.lt_succ_iff.mpr (le_refl (F * 16000 / R)))
    exact h
  have hdiv1q : (n0 : ℚ) * R ≤ (F : ℚ) * 16000 := by exact_mod_cast hdiv1
  have hdiv2q : (F : ℚ) * 16000 + 1 ≤ ((n0 : ℚ) + 1) * R := by exact_mod_cast hdiv2
  have hRq : (0 : ℚ) < R := by exact_mod_cast hR0
  -- the quotient stays below `n0 + 1`
  have hupper : q < (n0 : ℚ) + 1 := by
    by_contra hneg
    have hge : (n0 : ℚ) + 1 ≤ q := not_lt.mp hneg
    have e1 : ((n0 : ℚ) + 1) * r ≤ q * r := mul_le_mul_of_nonneg_right hge hr0.le
    have e2 : ((n0 : ℚ) + 1) * ((R : ℚ) * (1 - 1 / 2 ^ 53)) ≤ ((n0 : ℚ) + 1) * (16000 * r) :=
      mul_le_mul_of_nonneg_left hr1 (by positivity)
    have e3 : ((F : ℚ) * 16000 + 1) * (1 - 1 / 2 ^ 53) ≤
        ((n0 : ℚ) + 1) * R * (1 - 1 / 2 ^ 53) :=
      mul_le_mul_of_nonneg_right hdiv2q (by norm_num)
    norm_num at e2 e3 hq2
    linarith
  have hq32 : q < 2 ^ 32 := by
    have : (n0 : ℚ) + 1 ≤ 2 ^ 32 := by exact_mod_cast hQ
    linarith
  have hfl0 : 0 ≤ ⌊q⌋ := Int.floor_nonneg.mpr hq0.le
  refine ⟨⌊q⌋.toNat, by rw [hout, toUInt32_fin hq0.le hq32], ?_, ?_⟩
  · have h1 : ⌊q⌋ < (n0 : ℤ) + 1 := by
      rw [Int.floor_lt]
      push_cast
      exact hupper
    omega
  · -- `(⌊q⌋ + 1) * R ≥ F * 16000`
    have hlt : q < (⌊q⌋ : ℚ) + 1 := Int.lt_floor_add_one q
    have e1 : q * r < ((⌊q⌋ : ℚ) + 1) * r := mul_lt_mul_of_pos_right hlt hr0
    have hfq : (0 : ℚ) ≤ (⌊q⌋ : ℚ) + 1 := by
      have : (0 : ℚ) ≤ (⌊q⌋ : ℚ) := by exact_mod_cast hfl0
      linarith
    have e2 : ((⌊q⌋ : ℚ) + 1) * (16000 * r) ≤ ((⌊q⌋ : ℚ) + 1) * ((R : ℚ) * (1 + 1 / 2 ^ 53)) :=
      mul_le_mul_of_nonneg_left hr2 hfq
    have hP : (F : ℚ) * 16000 - 1 < ((⌊q⌋ : ℚ) + 1) * R := by
      norm_num at e2 hq1
      linarith
    have hPz : (F : ℤ) * 16000 - 1 < (⌊q⌋ + 1) * R := by
      have : (((F : ℤ) * 16000 - 1 : ℤ) : ℚ) < (((⌊q⌋ + 1) * R : ℤ) : ℚ) := by
        push_cast
        exact hP
      exact_mod_cast this
    have hP2 : F * 16000 ≤ (⌊q⌋.toNat + 1) * R := by
      have h1 : ((⌊q⌋.toNat : ℕ) : ℤ) = ⌊q⌋ := Int.toNat_of_nonneg hfl0
      have h2 : ((F * 16000 : ℕ) : ℤ) ≤ (((⌊q⌋.toNat + 1) * R : ℕ) : ℤ) := by
        push_cast
        rw [h1]
        omega
      exact_mod_cast h2
    have h3 : n0 * R ≤ (⌊q⌋.toNat + 1) * R := le_trans hdiv1 hP2
    exact Nat.le_of_mul_le_mul_right h3 hR0

/-- A `double` result below `2 ^ 32` cannot be rounded across an integer from a distance of
`2^-21` or more. -/
theorem round64_floor (x : ℚ) (a b : ℕ) (hb : b < 2 ^ 32) (h₁ : (a : ℚ) ≤ x)
    (h₂ : x ≤ (b : ℚ) + 1 - 1 / 2 ^ 21) :
    ∃ z : ℚ, binary64.round x = FP.fin z ∧ 0 ≤ z ∧ z < 2 ^ 32 ∧ (a : ℤ) ≤ ⌊z⌋ ∧ ⌊z⌋ ≤ (b : ℤ) := by
  have hbq : (b : ℚ) + 1 ≤ 4294967296 := by exact_mod_cast hb
  have ha0 : (0 : ℚ) ≤ a := by positivity
  have hx0 : 0 ≤ x := le_trans ha0 h₁
  have hpow : (2 : ℚ) ^ ((32 : ℤ) - (binary64.prec : ℤ)) = 1 / 2 ^ 21 := by
    rw [binary64_prec]
    norm_num
  obtain ⟨z, hz, hz1, hz2⟩ := binary64.round_bounds x (a : ℚ) ((b : ℚ) + 1 - 1 / 2 ^ 21) 32
    ((a : ℤ) * 2 ^ 21) (((b : ℤ) + 1) * 2 ^ 21 - 1)
    (by rw [abs_of_nonneg hx0]; norm_num at h₂ ⊢; linarith)
    (fun _ => by norm_num) (by rw [binary64_emin]; norm_num)
    (by rw [hpow]; push_cast; ring) (by rw [hpow]; push_cast; ring) h₁ h₂
    (lt_of_lt_of_le (neg_neg_of_pos (by positivity)) ha0)
    (by
      rw [binary64_emax]
      norm_num
      linarith)
  refine ⟨z, hz, le_trans ha0 hz1, by norm_num at hz2 ⊢; linarith, ?_, ?_⟩
  · exact Int.le_floor.mpr (by exact_mod_cast hz1)
  · have : ⌊z⌋ < (b : ℤ) + 1 := by
      rw [Int.floor_lt]
      push_cast
      norm_num at hz2 ⊢
      linarith
    omega

/-- Under the conditions of `round64_floor` the conversion to `UINT32` is defined. -/
theorem toUInt32_round64 (x : ℚ) (a b : ℕ) (hb : b < 2 ^ 32) (h₁ : (a : ℚ) ≤ x)
    (h₂ : x ≤ (b : ℚ) + 1 - 1 / 2 ^ 21) :
    ∃ k : ℕ, toUInt32 (binary64.round x) = some k ∧ a ≤ k ∧ k ≤ b := by
  obtain ⟨z, hz, hz0, hz32, hlo, hhi⟩ := round64_floor x a b hb h₁ h₂
  refine ⟨⌊z⌋.toNat, by rw [hz, toUInt32_fin hz0 hz32], ?_, ?_⟩ <;> omega

/-- Every index of the conversion loop maps to a frame of the packet: the test
`inputIndex >= frames` (lines 108, 154, 199) never succeeds. -/
theorem inputIndex_lt (F R n i : ℕ) (hR0 : 0 < R) (hR : R < 2 ^ 32) (hF : F < 2 ^ 32)
    (hn : outputFrames F R = some n) (hi : i < n) :
    ∃ k : ℕ, inputIndex i R = some k ∧ k < F := by
  rcases Nat.eq_zero_or_pos F with hF0 | hF0
  · subst hF0
    rw [outputFrames_zero R hR0 hR] at hn
    simp only [Option.some.injEq] at hn
    omega
  obtain ⟨r, q, hr, hout, hr0, hq0, hrlo, -, -, -, hq2, -⟩ :=
    outputFrames_data F R hR0 hR hF0 hF
  rw [hout] at hn
  simp only [toUInt32] at hn
  split_ifs at hn with hcond
  simp only [Option.some.injEq] at hn
  rw [truncZ_of_nonneg hq0.le] at hn
  have hfl0 : 0 ≤ ⌊q⌋ := Int.floor_nonneg.mpr hq0.le
  have hiq : (i : ℚ) + 1 ≤ q := by
    have h1 : (i : ℤ) + 1 ≤ ⌊q⌋ := by omega
    have h2 : (((i : ℤ) + 1 : ℤ) : ℚ) ≤ q := Int.le_floor.mp h1
    push_cast at h2
    exact h2
  have hFq : (F : ℚ) < 4294967296 := by exact_mod_cast hF
  have hF1 : (1 : ℚ) ≤ F := by exact_mod_cast hF0
  have hy : ((i : ℚ) + 1) * r ≤ q * r := mul_le_mul_of_nonneg_right hiq hr0.le
  have hcast : ((F - 1 : ℕ) : ℚ) = (F : ℚ) - 1 := by
    rw [Nat.cast_sub hF0]
    simp
  obtain ⟨k, hk, -, hk2⟩ := toUInt32_round64 ((i : ℚ) * r) 0 (F - 1) (by omega)
    (by
      rw [Nat.cast_zero]
      positivity)
    (by
      rw [hcast]
      norm_num at hq2 hrlo ⊢
      linarith)
  refine ⟨k, ?_, by omega⟩
  unfold inputIndex
  rw [hr]
  simp only [FP.mul]
  exact hk

/-- At a rate that is a multiple of 16000 the ratio is an integer, exactly. -/
theorem ratio_multiple (j : ℕ) (hR : 16000 * j < 2 ^ 32) : ratio (16000 * j) = FP.fin (j : ℚ) := by
  rw [ratio_eq]
  have h : (((16000 * j : ℕ) : ℚ)) / 16000 = (j : ℚ) := by
    push_cast
    field_simp
  rw [h]
  exact round64_natCast j (by omega)

/-- At a rate that is a multiple of 16000 the frame count is `floor(F / j)`. -/
theorem outputFrames_multiple (F j : ℕ) (hj : 0 < j) (hR : 16000 * j < 2 ^ 32) (hF : F < 2 ^ 32) :
    outputFrames F (16000 * j) = some (F / j) := by
  have hjq : (0 : ℚ) < j := by exact_mod_cast hj
  have hj21 : (j : ℚ) ≤ 2097152 := by
    have : j ≤ 2097152 := by omega
    exact_mod_cast this
  have hdiv1 : F / j * j ≤ F := Nat.div_mul_le_self _ _
  have hdiv2 : F + 1 ≤ (F / j + 1) * j :=
    (Nat.div_lt_iff_lt_mul hj).mp (Nat.lt_succ_iff.mpr (le_refl (F / j)))
  have hdiv1q : ((F / j : ℕ) : ℚ) * j ≤ F := by exact_mod_cast hdiv1
  have hdiv2q : (F : ℚ) + 1 ≤ (((F / j : ℕ) : ℚ) + 1) * j := by exact_mod_cast hdiv2
  have hle : F / j ≤ F := Nat.div_le_self _ _
  obtain ⟨k, hk, hk1, hk2⟩ := toUInt32_round64 ((F : ℚ) / j) (F / j) (F / j) (by omega)
    (by rw [le_div_iff₀ hjq]; exact hdiv1q)
    (by
      rw [div_le_iff₀ hjq]
      have : (1 : ℚ) / 2 ^ 21 * j ≤ 1 := by norm_num; linarith
      linarith)
  unfold outputFrames
  rw [ratio_multiple j hR]
  simp only [FP.div]
  rw [if_neg hjq.ne', hk]
  congr 1
  omega

/-- At a rate that is a multiple of 16000 the source index is `i * j`. -/
theorem inputIndex_multiple (i j : ℕ) (hR : 16000 * j < 2 ^ 32) (hij : i * j < 2 ^ 32) :
    inputIndex i (16000 * j) = some (i * j) := by
  unfold inputIndex
  rw [ratio_multiple j hR]
  simp only [FP.mul]
  have h : (i : ℚ) * (j : ℚ) = ((i * j : ℕ) : ℚ) := by push_cast; ring
  rw [h, round64_natCast (i * j) (by omega)]
  exact toUInt32_natCast (i * j) hij

/-! ## Evaluating a rounding -/

theorem roundHalfEven_eq_of_abs_lt {x : ℚ} {m : ℤ} (h : |x - (m : ℚ)| < 1 / 2) :
    roundHalfEven x = m := by
  have h1 := abs_lt.mp h
  have h2 := abs_le.mp (abs_roundHalfEven_sub_le x)
  have hlt : (roundHalfEven x : ℚ) < (m : ℚ) + 1 := by linarith [h1.2, h2.2]
  have hgt : (m : ℚ) - 1 < (roundHalfEven x : ℚ) := by linarith [h1.1, h2.1]
  have hlt2 : roundHalfEven x < m + 1 := by exact_mod_cast hlt
  have hgt2 : m - 1 < roundHalfEven x := by exact_mod_cast hgt
  omega

/-- The rounding of `x` is `m * 2 ^ (e - (prec - 1))` when `x` lies in the binade of
exponent `e` and `m` is the integer nearest to its scaled significand. -/
theorem Format.round_eval (f : Format) (x : ℚ) (e m : ℤ) (h₁ : 2 ^ e ≤ |x|)
    (h₂ : |x| < 2 ^ (e + 1)) (he : f.emin ≤ e)
    (h₃ : |x / 2 ^ (e - ((f.prec : ℤ) - 1)) - (m : ℚ)| < 1 / 2)
    (h₄ : |(m : ℚ) * 2 ^ (e - ((f.prec : ℤ) - 1))| < 2 ^ (f.emax + 1)) :
    f.round x = FP.fin ((m : ℚ) * 2 ^ (e - ((f.prec : ℤ) - 1))) := by
  have hpos : 0 < |x| := lt_of_lt_of_le (by positivity) h₁
  have hlog : Int.log 2 |x| = e := by
    have ha := (Int.zpow_le_iff_le_log (b := 2) (by norm_num) hpos).mp (by exact_mod_cast h₁)
    have hb := (Int.lt_zpow_iff_log_lt (b := 2) (by norm_num) hpos).mp (by exact_mod_cast h₂)
    omega
  have hu : f.ulp x = 2 ^ (e - ((f.prec : ℤ) - 1)) := by
    unfold Format.ulp
    rw [hlog, max_eq_left he]
  unfold Format.round
  simp only
  rw [hu, roundHalfEven_eq_of_abs_lt h₃, if_neg (not_le.mpr h₄)]

theorem ratio_16001 : ratio 16001 = FP.fin (4503881102347207 / 4503599627370496) := by
  rw [ratio_eq]
  have h := binary64.round_eval (((16001 : ℕ) : ℚ) / 16000) 0 4503881102347207
    (by norm_num [abs_of_pos]) (by norm_num [abs_of_pos]) (by rw [binary64_emin]; norm_num)
    (by rw [binary64_prec]; norm_num [abs_lt])
    (by rw [binary64_prec, binary64_emax]; norm_num [abs_lt])
  rw [h, binary64_prec]
  norm_num

/-- At 16001 Hz a packet of 16001 frames yields 15999 output frames. -/
theorem outputFrames_16001 : outputFrames 16001 16001 = some 15999 := by
  unfold outputFrames
  rw [ratio_16001]
  simp only [FP.div]
  rw [if_neg (by norm_num)]
  have h := binary64.round_eval (((16001 : ℕ) : ℚ) / (4503881102347207 / 4503599627370496)) 13
    8796093022207999
    (by norm_num [abs_of_pos]) (by norm_num [abs_of_pos]) (by rw [binary64_emin]; norm_num)
    (by rw [binary64_prec]; norm_num [abs_lt])
    (by rw [binary64_prec, binary64_emax]; norm_num [abs_lt])
  rw [h, binary64_prec, toUInt32_fin (by norm_num) (by norm_num)]
  norm_num
  rfl

/-! ## The claims on the frame count and the source index -/

theorem length_ConvertStereoFloat32ToMono16 (input : List FP) (F R : ℕ) :
    (ConvertStereoFloat32ToMono16 input F R).map List.length = outputFrames F R := by
  simp [ConvertStereoFloat32ToMono16, Option.map_map, Function.comp_def]

theorem length_ConvertMonoFloat32ToMono16 (input : List FP) (F R : ℕ) :
    (ConvertMonoFloat32ToMono16 input F R).map List.length = outputFrames F R := by
  simp [ConvertMonoFloat32ToMono16, Option.map_map, Function.comp_def]

theorem length_ConvertStereoInt16ToMono16 (input : List Int16) (F R : ℕ) :
    (ConvertStereoInt16ToMono16 input F R).map List.length = outputFrames F R := by
  simp [ConvertStereoInt16ToMono16, Option.map_map, Function.comp_def]

theorem specOutputFrames_le (F R : ℕ) (hR16 : 16000 ≤ R) : specOutputFrames F R ≤ F := by
  unfold specOutputFrames TARGET_SAMPLE_RATE
  calc F * 16000 / R ≤ F * 16000 / 16000 := Nat.div_le_div_left hR16 (by norm_num)
    _ = F := Nat.mul_div_cancel F (by norm_num)

theorem specOutputFrames_multiple (F j : ℕ) :
    specOutputFrames F (16000 * j) = F / j := by
  unfold specOutputFrames TARGET_SAMPLE_RATE
  rw [Nat.mul_comm 16000 j]
  exact Nat.mul_div_mul_right F j (by norm_num)

/-! ## Rates at which the frame count is exact -/

/-- Rounding yields the grid point that is nearer than half a unit. -/
theorem Format.round_nearest (f : Format) (x y : ℚ) (M : ℤ) (hy : y = (M : ℚ) * f.ulp x)
    (hnear : |x - y| < f.ulp x / 2) (hov : |y| < 2 ^ (f.emax + 1)) :
    f.round x = FP.fin y := by
  have hu := f.ulp_pos x
  have h1 : |x / f.ulp x - (M : ℚ)| < 1 / 2 := by
    have e : x / f.ulp x - (M : ℚ) = (x - y) / f.ulp x := by
      rw [hy]
      field_simp
      ring
    rw [e, abs_div, abs_of_pos hu, div_lt_iff₀ hu]
    linarith
  unfold Format.round
  simp only
  rw [roundHalfEven_eq_of_abs_lt h1, ← hy, if_neg (not_le.mpr hov)]

/-- A positive operand is below `2 ^ prec` units in the last place. -/
theorem Format.lt_ulp_mul (f : Format) (x : ℚ) (hx : 0 < x) : x < f.ulp x * 2 ^ f.prec := by
  have h1 : x < (2 : ℚ) ^ (Int.log 2 x + 1) := by
    have := Int.lt_zpow_succ_log_self (b := 2) (by norm_num) x
    exact_mod_cast this
  have h2 : f.ulp x * 2 ^ f.prec = 2 ^ (max (Int.log 2 |x|) f.emin + 1) := by
    unfold Format.ulp
    rw [← zpow_natCast, ← zpow_add₀ (by norm_num : (2 : ℚ) ≠ 0)]
    congr 1
    ring
  rw [h2, abs_of_pos hx]
  refine lt_of_lt_of_le h1 ?_
  exact zpow_le_zpow_right₀ (by norm_num) (by have := le_max_left (Int.log 2 x) f.emin; omega)

/-- Every integer lies on the grid of a `double` operand below `2 ^ 53`. -/
theorem exists_grid64 (x : ℚ) (a : ℕ) (hx0 : 0 ≤ x) (hx : x < 2 ^ 53) :
    ∃ M : ℤ, (a : ℚ) = (M : ℚ) * binary64.ulp x := by
  have hexp := binary64.ulp_exp_le x 53 (by rw [abs_of_nonneg hx0]; exact_mod_cast hx)
    (fun _ => by norm_num) (by rw [binary64_emin]; norm_num)
  rw [binary64_prec] at hexp
  obtain ⟨M, hM⟩ := binary64.exists_grid x (a : ℤ) 0 (by rw [binary64_prec]; omega)
  refine ⟨M, ?_⟩
  rw [← hM]
  simp

/-- A `double` operand below `2 ^ 53` that is at least a natural number is rounded to at
least that number. -/
theorem round64_ge_natCast (x z : ℚ) (a : ℕ) (hx : x < 2 ^ 53) (h : (a : ℚ) ≤ x)
    (hz : binary64.round x = FP.fin z) : (a : ℚ) ≤ z := by
  have ha0 : (0 : ℚ) ≤ a := by positivity
  have hx0 : 0 ≤ x := le_trans ha0 h
  obtain ⟨M₁, hM₁⟩ := exists_grid64 x a hx0 hx
  obtain ⟨M₂, hM₂⟩ := exists_grid64 x (2 ^ 53) hx0 hx
  have h53 : ((2 ^ 53 : ℕ) : ℚ) = 2 ^ 53 := by norm_num
  obtain ⟨w, hw, hw1, -⟩ := binary64.round_between x M₁ M₂ (by rw [← hM₁]; exact h)
    (by rw [← hM₂, h53]; exact hx.le)
    (by rw [← hM₁]; exact lt_of_lt_of_le (neg_neg_of_pos (by positivity)) ha0)
    (by rw [← hM₂, h53, binary64_emax]; norm_num)
  rw [hz] at hw
  rw [FP.fin.inj hw, hM₁]
  exact hw1

/-- The frame count is exactly `floor(F * 16000 / R)` when the double-precision ratio does
not exceed `R / 16000` by more than a relative `2^-54`. -/
theorem outputFrames_exact (F R : ℕ) (r : ℚ) (hR0 : 0 < R) (hR : R < 2 ^ 32) (hF : F < 2 ^ 32)
    (hQ : specOutputFrames F R < 2 ^ 32) (hr : ratio R = FP.fin r)
    (hup : 16000 * r ≤ (R : ℚ) * (1 + 1 / 2 ^ 54)) :
    outputFrames F R = some (specOutputFrames F R) := by
  obtain ⟨n, hn, h1, -⟩ := outputFrames_spec F R hR0 hR hF hQ
  rcases Nat.eq_zero_or_pos F with hF0 | hF0
  · subst hF0
    rw [outputFrames_zero R hR0 hR]
    simp [specOutputFrames]
  obtain ⟨r', q, hr', hout, hr0, hq0, hrlo, -, -, -, -, hdiv⟩ :=
    outputFrames_data F R hR0 hR hF0 hF
  rw [hr] at hr'
  have hrr : r' = r := (FP.fin.inj hr').symm
  subst hrr
  have hn' := hn
  rw [hout] at hn
  simp only [toUInt32] at hn
  split_ifs at hn with hcond
  simp only [Option.some.injEq] at hn
  rw [truncZ_of_nonneg hq0.le] at hn
  have hfl0 : 0 ≤ ⌊q⌋ := Int.floor_nonneg.mpr hq0.le
  have hFq : (0 : ℚ) < F := by exact_mod_cast hF0
  have hF32 : (F : ℚ) < 4294967296 := by exact_mod_cast hF
  have hRq : (0 : ℚ) < R := by exact_mod_cast hR0
  have hx0 : 0 < (F : ℚ) / r' := div_pos hFq hr0
  have hx53 : (F : ℚ) / r' < 2 ^ 53 := by
    rw [div_lt_iff₀ hr0]
    have : (2 : ℚ) ^ 53 * (1 / 2 ^ 15) ≤ 2 ^ 53 * r' :=
      mul_le_mul_of_nonneg_left hrlo (by positivity)
    norm_num at this ⊢
    linarith
  have hxr : (F : ℚ) / r' * r' = F := div_mul_cancel₀ _ hr0.ne'
  have hdivn : specOutputFrames F R * R ≤ F * 16000 := by
    unfold specOutputFrames TARGET_SAMPLE_RATE
    exact Nat.div_mul_le_self _ _
  have hdivq : (specOutputFrames F R : ℚ) * R ≤ (F : ℚ) * 16000 := by exact_mod_cast hdivn
  -- the rounded quotient is at least `floor(F * 16000 / R)`
  have hge : (specOutputFrames F R : ℚ) ≤ q := by
    rcases le_or_lt (specOutputFrames F R : ℚ) ((F : ℚ) / r') with hx | hx
    · exact round64_ge_natCast _ q _ hx53 hx hdiv
    · -- `F / r' < n0 ≤ F * 16000 / R`, and the gap is below half a unit
      obtain ⟨M, hM⟩ := exists_grid64 ((F : ℚ) / r') (specOutputFrames F R) hx0.le hx53
      have hulp := binary64.lt_ulp_mul ((F : ℚ) / r') hx0
      rw [binary64_prec] at hulp
      have hgap : (specOutputFrames F R : ℚ) ≤ (F : ℚ) / r' * (1 + 1 / 2 ^ 54) := by
        have e1 : (F : ℚ) / r' * (16000 * r') ≤ (F : ℚ) / r' * ((R : ℚ) * (1 + 1 / 2 ^ 54)) :=
          mul_le_mul_of_nonneg_left hup hx0.le
        have e2 : (F : ℚ) / r' * (16000 * r') = (F : ℚ) * 16000 := by
          rw [← mul_assoc, mul_comm ((F : ℚ) / r') 16000, mul_assoc, hxr]
          ring
        rw [e2] at e1
        have e3 : (specOutputFrames F R : ℚ) * R ≤ (F : ℚ) / r' * (1 + 1 / 2 ^ 54) * R := by
          calc (specOutputFrames F R : ℚ) * R ≤ (F : ℚ) * 16000 := hdivq
            _ ≤ (F : ℚ) / r' * ((R : ℚ) * (1 + 1 / 2 ^ 54)) := e1
            _ = (F : ℚ) / r' * (1 + 1 / 2 ^ 54) * R := by ring
        exact le_of_mul_le_mul_right e3 hRq
      have hnear : |(F : ℚ) / r' - (specOutputFrames F R : ℚ)| <
          binary64.ulp ((F : ℚ) / r') / 2 := by
        rw [abs_lt]
        constructor
        · norm_num at hgap hulp ⊢
          linarith
        · have := binary64.ulp_pos ((F : ℚ) / r')
          linarith
      have hq' := binary64.round_nearest ((F : ℚ) / r') (specOutputFrames F R) M hM hnear
        (by
          rw [binary64_emax, abs_of_nonneg (by positivity)]
          have : (specOutputFrames F R : ℚ) < 4294967296 := by exact_mod_cast hQ
          refine lt_trans this ?_
          norm_num)
      rw [hdiv] at hq'
      rw [FP.fin.inj hq']
  have hn0q : (specOutputFrames F R : ℤ) ≤ ⌊q⌋ := Int.le_floor.mpr (by exact_mod_cast hge)
  rw [hn']
  congr 1
  omega

theorem ratio_44100 : ratio 44100 = FP.fin (6206523236469965 / 2251799813685248) := by
  rw [ratio_eq]
  have h := binary64.round_eval (((44100 : ℕ) : ℚ) / 16000) 1 6206523236469965
    (by norm_num [abs_of_pos]) (by norm_num [abs_of_pos]) (by rw [binary64_emin]; norm_num)
    (by rw [binary64_prec]; norm_num [abs_lt])
    (by rw [binary64_prec, binary64_emax]; norm_num [abs_lt])
  rw [h, binary64_prec]
  norm_num

/-- At 44100 Hz the frame count is exactly `floor(F * 16000 / 44100)`. -/
theorem outputFrames_44100 (F : ℕ) (hF : F < 2 ^ 32) :
    outputFrames F 44100 = some (specOutputFrames F 44100) :=
  outputFrames_exact F 44100 _ (by norm_num) (by norm_num) hF
    (lt_of_le_of_lt (specOutputFrames_le F 44100 (by norm_num)) hF) ratio_44100 (by norm_num)

/-- The frame count at a positive rate: defined, `floor(F * 16000 / R)` or one less, and
exactly `floor(F * 16000 / R)` at a multiple of 16000 and at 44100 Hz. -/
theorem outputFrames_count (F R : ℕ) (hR0 : 0 < R) (hR : R < 2 ^ 32) (hF : F < 2 ^ 32)
    (hQ : specOutputFrames F R < 2 ^ 32) :
    ∃ n : ℕ, outputFrames F R = some n ∧ n ≤ specOutputFrames F R ∧
      specOutputFrames F R ≤ n + 1 ∧
      (16000 ∣ R ∨ R = 44100 → n = specOutputFrames F R) := by
  obtain ⟨n, hn, h1, h2⟩ := outputFrames_spec F R hR0 hR hF hQ
  refine ⟨n, hn, h1, h2, ?_⟩
  rintro (⟨j, rfl⟩ | rfl)
  · have hj : 0 < j := by omega
    rw [outputFrames_multiple F j hj hR hF] at hn
    rw [specOutputFrames_multiple F j]
    exact (Option.some.inj hn).symm
  · rw [outputFrames_44100 F hF] at hn
    exact (Option.some.inj hn).symm

/-- C1 (amended): for every native rate `R ≥ 16000` and every `UINT32` frame count `F`, the
three converters emit the same number `n` of samples, `n` is `floor(F * 16000 / R)` or one
less (the quotient is taken in double precision), and `n = floor(F * 16000 / R)` whenever
`R` is a multiple of 16000 or `R = 44100`; in particular `n = F` at 16000 Hz and
`n = floor(F / 3)` at 48000 Hz. -/
theorem C1_converters_emit_count (F R : ℕ) (hR16 : 16000 ≤ R) (hR : R < 2 ^ 32)
    (hF : F < 2 ^ 32) (floats : List FP) (ints : List Int16) :
    ∃ n : ℕ, (ConvertStereoFloat32ToMono16 floats F R).map List.length = some n ∧
      (ConvertMonoFloat32ToMono16 floats F R).map List.length = some n ∧
      (ConvertStereoInt16ToMono16 ints F R).map List.length = some n ∧
      n ≤ specOutputFrames F R ∧ specOutputFrames F R ≤ n + 1 ∧
      (16000 ∣ R ∨ R = 44100 → n = specOutputFrames F R) ∧
      (R = 16000 → n = F) ∧ (R = 48000 → n = F / 3) := by
  have hQ : specOutputFrames F R < 2 ^ 32 := lt_of_le_of_lt (specOutputFrames_le F R hR16) hF
  obtain ⟨n, hn, h1, h2, h3⟩ := outputFrames_count F R (by omega) hR hF hQ
  refine ⟨n, ?_, ?_, ?_, h1, h2, h3, ?_, ?_⟩
  · rw [length_ConvertStereoFloat32ToMono16, hn]
  · rw [length_ConvertMonoFloat32ToMono16, hn]
  · rw [length_ConvertStereoInt16ToMono16, hn]
  · intro h
    subst h
    rw [h3 (Or.inl ⟨1, rfl⟩)]
    simp [specOutputFrames, TARGET_SAMPLE_RATE]
  · intro h
    subst h
    rw [h3 (Or.inl ⟨3, rfl⟩)]
    exact specOutputFrames_multiple F 3

/-- C1 (witness): a packet of 441 frames at 44100 Hz. -/
theorem C1_converters_emit_count_witness :
    ∃ n : ℕ, (ConvertStereoFloat32ToMono16 [] 441 44100).map List.length = some n ∧
      (ConvertMonoFloat32ToMono16 [] 441 44100).map List.length = some n ∧
      (ConvertStereoInt16ToMono16 [] 441 44100).map List.length = some n ∧
      n ≤ specOutputFrames 441 44100 ∧ specOutputFrames 441 44100 ≤ n + 1 ∧
      (16000 ∣ 44100 ∨ 44100 = 44100 → n = specOutputFrames 441 44100) ∧
      (44100 = 16000 → n = 441) ∧ (44100 = 48000 → n = 441 / 3) :=
  C1_converters_emit_count 441 44100 (by norm_num) (by norm_num) (by norm_num) [] []

/-- C1 (counterexample): at 16001 Hz a packet of 16001 frames makes each converter emit
15999 samples, although `floor(16001 * 16000 / 16001) = 16000`. -/
theorem C1_counterexample :
    (ConvertStereoFloat32ToMono16 (List.replicate 32002 (FP.fin 0)) 16001 16001).map List.length
        = some 15999 ∧
      (ConvertMonoFloat32ToMono16 (List.replicate 16001 (FP.fin 0)) 16001 16001).map List.length
        = some 15999 ∧
      (ConvertStereoInt16ToMono16 (List.replicate 32002 ⟨0, by decide⟩) 16001 16001).map
        List.length = some 15999 ∧
      specOutputFrames 16001 16001 = 16000 := by
  refine ⟨?_, ?_, ?_, by decide⟩
  · rw [length_ConvertStereoFloat32ToMono16, outputFrames_16001]
  · rw [length_ConvertMonoFloat32ToMono16, outputFrames_16001]
  · rw [length_ConvertStereoInt16ToMono16, outputFrames_16001]

theorem mulUInt32_two_lt (k F : ℕ) (hk : k < F) :
    mulUInt32 k 2 < 2 * F ∧ addUInt32 (mulUInt32 k 2) 1 < 2 * F := by
  unfold mulUInt32 addUInt32
  have h1 : k * 2 % 2 ^ 32 ≤ k * 2 := Nat.mod_le _ _
  have h2 : (k * 2 % 2 ^ 32 + 1) % 2 ^ 32 ≤ k * 2 % 2 ^ 32 + 1 := Nat.mod_le _ _
  omega

/-- C9: at every positive rate, every index `i` of the conversion loop of a packet of `F`
frames yields a source index below `F`, both with the exact ratio `R / 16000`
(`floor(i * R / 16000) < F` for `i < floor(F * 16000 / R)`) and with the double-precision
ratio the three converters use (`inputIndex` is their common index computation); so the
test `inputIndex >= frames` never succeeds and the reads at `inputIndex` (mono),
`2 * inputIndex` and `2 * inputIndex + 1` (stereo) stay inside a packet of `F` frames. -/
theorem C9_source_index_in_packet (F R i : ℕ) (hR0 : 0 < R) (hR : R < 2 ^ 32)
    (hF : F < 2 ^ 32) :
    (i < specOutputFrames F R → specInputIndex i R < F) ∧
      ∀ n : ℕ, outputFrames F R = some n → i < n →
        ∃ k : ℕ, inputIndex i R = some k ∧ k < F ∧
          mulUInt32 k 2 < 2 * F ∧ addUInt32 (mulUInt32 k 2) 1 < 2 * F ∧
          ∀ (floats : List FP) (ints : List Int16),
            (F ≤ floats.length → floats[k]?.isSome = true) ∧
            (2 * F ≤ floats.length → floats[mulUInt32 k 2]?.isSome = true ∧
              floats[addUInt32 (mulUInt32 k 2) 1]?.isSome = true) ∧
            (2 * F ≤ ints.length → ints[mulUInt32 k 2]?.isSome = true ∧
              ints[addUInt32 (mulUInt32 k 2) 1]?.isSome = true) := by
  constructor
  · intro hi
    unfold specOutputFrames specInputIndex TARGET_SAMPLE_RATE at *
    have h1 : (i + 1) * R ≤ F * 16000 := (Nat.le_div_iff_mul_le hR0).mp hi
    rw [Nat.div_lt_iff_lt_mul (by norm_num)]
    have h2 : (i + 1) * R = i * R + R := by ring
    omega
  · intro n hn hi
    obtain ⟨k, hk, hkF⟩ := inputIndex_lt F R n i hR0 hR hF hn hi
    obtain ⟨h1, h2⟩ := mulUInt32_two_lt k F hkF
    refine ⟨k, hk, hkF, h1, h2, ?_⟩
    intro floats ints
    refine ⟨fun hl => ?_, fun hl => ⟨?_, ?_⟩, fun hl => ⟨?_, ?_⟩⟩
    · rw [List.getElem?_eq_getElem (by omega)]
      rfl
    · rw [List.getElem?_eq_getElem (by omega)]
      rfl
    · rw [List.getElem?_eq_getElem (by omega)]
      rfl
    · rw [List.getElem?_eq_getElem (by omega)]
      rfl
    · rw [List.getElem?_eq_getElem (by omega)]
      rfl

/-- C9 (witness): the last output index of a packet of 480 frames at 48000 Hz. -/
theorem C9_source_index_in_packet_witness :
    ∃ k : ℕ, inputIndex 159 48000 = some k ∧ k < 480 ∧
      mulUInt32 k 2 < 2 * 480 ∧ addUInt32 (mulUInt32 k 2) 1 < 2 * 480 ∧
      ∀ (floats : List FP) (ints : List Int16),
        (480 ≤ floats.length → floats[k]?.isSome = true) ∧
        (2 * 480 ≤ floats.length → floats[mulUInt32 k 2]?.isSome = true ∧
          floats[addUInt32 (mulUInt32 k 2) 1]?.isSome = true) ∧
        (2 * 480 ≤ ints.length → ints[mulUInt32 k 2]?.isSome = true ∧
          ints[addUInt32 (mulUInt32 k 2) 1]?.isSome = true) :=
  (C9_source_index_in_packet 480 48000 159 (by norm_num) (by norm_num) (by norm_num)).2 160
    (outputFrames_multiple 480 3 (by norm_num) (by norm_num) (by norm_num)) (by norm_num)

/-! ## One pass of the loop -/

theorem handlePacket_silent (pwfx : WAVEFORMATEX) (cap : ℕ) (p : Packet) (bytes : ℕ)
    (hs : p.flags &&& AUDCLNT_BUFFERFLAGS_SILENT ≠ 0)
    (hb : silenceBytes p.numFramesAvailable pwfx.nSamplesPerSec = some bytes) :
    handlePacket pwfx cap p true = ([.zeroBytes bytes], .continue) := by
  unfold handlePacket
  rw [if_pos hs, hb]
  rfl

theorem handlePacket_unsupported (pwfx : WAVEFORMATEX) (cap : ℕ) (p : Packet) (sa : Bool)
    (hs : ¬ (p.flags &&& AUDCLNT_BUFFERFLAGS_SILENT ≠ 0)) (hd : dispatch pwfx = none) :
    handlePacket pwfx cap p sa = ([], .continue) := by
  unfold handlePacket
  rw [if_neg hs, hd]

theorem handlePacket_converted (pwfx : WAVEFORMATEX) (cap : ℕ) (p : Packet) (sa : Bool)
    (c : Converter) (s : List Sample)
    (hs : ¬ (p.flags &&& AUDCLNT_BUFFERFLAGS_SILENT ≠ 0)) (hd : dispatch pwfx = some c)
    (hr : c.run pwfx p = some s) :
    handlePacket pwfx cap p sa =
      if s.length ≤ cap then ([.samples s], .continue) else ([], .undefined) := by
  unfold handlePacket
  rw [if_neg hs, hd]
  dsimp only
  rw [hr]

theorem loopBody_handled (pwfx : WAVEFORMATEX) (cap : ℕ) (pollHr : ℤ) (len : ℕ) (bufferHr : ℤ)
    (p : Packet) (sa : Bool) (releaseHr : ℤ) (w : List Chunk) (c : Control)
    (h₁ : ¬ (FAILED pollHr = true)) (h₂ : len ≠ 0) (h₃ : ¬ (FAILED bufferHr = true))
    (hh : handlePacket pwfx cap p sa = (w, c)) :
    loopBody pwfx cap ⟨pollHr, len, bufferHr, p, sa, releaseHr⟩ =
      if c = .continue then
        (if FAILED releaseHr then ⟨w, true, .break⟩ else ⟨w, true, .continue⟩)
      else ⟨w, false, c⟩ := by
  unfold loopBody
  rw [if_neg h₁, if_neg h₂, if_neg h₃]
  dsimp only
  rw [hh]
  cases c <;> simp

theorem pump_cons (pwfx : WAVEFORMATEX) (cap : ℕ) (it : Iteration) (rest : List Iteration)
    (w : List Chunk) (r : Bool) (c : Control) (h : loopBody pwfx cap it = ⟨w, r, c⟩) :
    pump pwfx cap (it :: rest) =
      match c with
      | .continue => (w ++ (pump pwfx cap rest).1, (pump pwfx cap rest).2.1 + 1,
          (pump pwfx cap rest).2.2)
      | .break => (w, 1, .returned S_OK)
      | .undefined => (w, 1, .undefined) := by
  cases c <;> simp only [pump, h]

theorem CaptureLoop_running (pwfx : WAVEFORMATEX) (B : ℕ) (script : List Iteration)
    (hR : pwfx.nSamplesPerSec ≠ 0) :
    CaptureLoop ⟨pwfx, B, true⟩ true script =
      pump pwfx (maxOutputFrames B pwfx.nSamplesPerSec) script := by
  unfold CaptureLoop
  dsimp only
  rw [if_neg (by simp), if_neg hR, if_neg (by simp)]

/-! ## The capacity of the conversion buffer -/

/-- Without the wrap of line 224 the conversion buffer holds every packet of at most
`bufferFrameCount` frames. -/
theorem outputFrames_le_maxOutputFrames (B R F n : ℕ) (hR0 : 0 < R) (hR : R < 2 ^ 32)
    (hB : B * 16000 < 2 ^ 32) (hF : F ≤ B) (hn : outputFrames F R = some n) :
    n ≤ maxOutputFrames B R := by
  have hF32 : F < 2 ^ 32 := by omega
  have hQ : specOutputFrames F R < 2 ^ 32 := by
    unfold specOutputFrames TARGET_SAMPLE_RATE
    have h1 : F * 16000 / R ≤ F * 16000 := Nat.div_le_self _ _
    omega
  obtain ⟨m, hm, h1, -, -⟩ := outputFrames_count F R hR0 hR hF32 hQ
  rw [hn] at hm
  have hnm : n = m := Option.some.inj hm
  have h2 : specOutputFrames F R ≤ B * 16000 / R := by
    unfold specOutputFrames TARGET_SAMPLE_RATE
    exact Nat.div_le_div_right (Nat.mul_le_mul_right 16000 hF)
  have h3 : B * 16000 / R ≤ B * 16000 := Nat.div_le_self _ _
  unfold maxOutputFrames addUInt32 mulUInt32 TARGET_SAMPLE_RATE
  rw [Nat.mod_eq_of_lt hB, Nat.mod_eq_of_lt (by omega)]
  omega

/-- C10 (the code at the failing input): with a device buffer of 384000 frames at 384000 Hz
the product `bufferFrameCount * 16000` wraps, the conversion buffer holds 4816 samples, and
a full packet makes the converter write 16000 samples: the pass of the loop is undefined. -/
theorem C10_buffer_too_small :
    maxOutputFrames 384000 384000 = 4816 ∧ outputFrames 384000 384000 = some 16000 ∧
      CaptureLoop ⟨overflowFormat, 384000, true⟩ true
        [⟨S_OK, 384000, S_OK, overflowPacket, true, S_OK⟩] = ([], 1, .undefined) := by
  have hcap : maxOutputFrames 384000 384000 = 4816 := by decide
  have hout : outputFrames 384000 384000 = some 16000 :=
    outputFrames_multiple 384000 24 (by norm_num) (by norm_num) (by norm_num)
  refine ⟨hcap, hout, ?_⟩
  have hlen := length_ConvertStereoFloat32ToMono16 overflowPacket.floatData 384000 384000
  rw [hout] at hlen
  obtain ⟨s, hs, hsl⟩ := Option.map_eq_some'.mp hlen
  have hhandle := handlePacket_converted overflowFormat 4816 overflowPacket true
    .stereoFloat32 s (by decide) (by decide) hs
  rw [hsl, if_neg (by norm_num)] at hhandle
  have hbody := loopBody_handled overflowFormat 4816 S_OK 384000 S_OK overflowPacket true S_OK
    [] .undefined (by decide) (by decide) (by decide) hhandle
  rw [if_neg (by decide)] at hbody
  have hpump := pump_cons overflowFormat 4816 _ [] _ _ _ hbody
  have hloop := CaptureLoop_running overflowFormat 384000
    [⟨S_OK, 384000, S_OK, overflowPacket, true, S_OK⟩] (by decide)
  rw [hloop]
  have hcap2 : maxOutputFrames 384000 overflowFormat.nSamplesPerSec = 4816 := hcap
  rw [hcap2, hpump]

/-! ## Quantisation -/

theorem Format.round_ne_nan (f : Format) (x : ℚ) : f.round x ≠ FP.nan := by
  unfold Format.round
  simp only
  split_ifs <;> simp

/-- An integer of at most 24 bits is a `float`. -/
theorem round32_intCast (n : ℤ) (hn : |n| < 2 ^ 24) : binary32.round (n : ℚ) = FP.fin (n : ℚ) := by
  have hq : |(n : ℚ)| < 2 ^ 24 := by exact_mod_cast hn
  have h := binary32.round_dyadic n 0 (by rw [binary32_prec]; exact hq)
    (by rw [binary32_prec, binary32_emin]; norm_num)
    (by
      rw [binary32_emax, zpow_zero, mul_one]
      refine lt_trans hq ?_
      norm_num)
  simpa using h

theorem truncZ_intCast (n : ℤ) : truncZ (n : ℚ) = n := by
  unfold truncZ
  split_ifs <;> simp

theorem truncZ_bounds (z : ℚ) (a b : ℤ) (ha : a ≤ 0) (hb : 0 ≤ b) (h₁ : (a : ℚ) ≤ z)
    (h₂ : z ≤ (b : ℚ)) : a ≤ truncZ z ∧ truncZ z ≤ b := by
  unfold truncZ
  split_ifs with h
  · have h0 : 0 ≤ ⌊z⌋ := Int.floor_nonneg.mpr h
    have h1 : ⌊z⌋ ≤ b := by
      have : (⌊z⌋ : ℚ) ≤ b := le_trans (Int.floor_le z) h₂
      exact_mod_cast this
    omega
  · have h0 : ⌈z⌉ ≤ 0 := Int.ceil_le.mpr (by push_cast; linarith)
    have h1 : a ≤ ⌈z⌉ := by
      have : (a : ℚ) ≤ ⌈z⌉ := le_trans h₁ (Int.le_ceil z)
      exact_mod_cast this
    omega

/-- The clamp of a datum that is not a NaN is a number of `[-1, 1]`. -/
theorem clamp_spec (m : FP) (hm : m ≠ FP.nan) : ∃ c : ℚ, clamp m = FP.fin c ∧ -1 ≤ c ∧ c ≤ 1 := by
  cases m with
  | nan => exact absurd rfl hm
  | inf s =>
    cases s
    · exact ⟨1, by simp [clamp, FP.gt, FP.lt], by norm_num, by norm_num⟩
    · exact ⟨-1, by simp [clamp, FP.gt, FP.lt], by norm_num, by norm_num⟩
  | fin q =>
    by_cases h1 : 1 < q
    · refine ⟨1, ?_, by norm_num, by norm_num⟩
      simp [clamp, FP.gt, FP.lt, h1]
    · by_cases h2 : q < -1
      · refine ⟨-1, ?_, by norm_num, by norm_num⟩
        simp [clamp, FP.gt, FP.lt, h1, h2]
      · refine ⟨q, ?_, not_lt.mp h2, not_lt.mp h1⟩
        simp [clamp, FP.gt, FP.lt, h1, h2]

theorem clamp_fin (q : ℚ) (h₁ : -1 ≤ q) (h₂ : q ≤ 1) : clamp (.fin q) = FP.fin q := by
  simp [clamp, FP.gt, FP.lt, not_lt.mpr h₁, not_lt.mpr h₂]

/-- The product of a number of `[-1, 1]` by `32767.0f` is a number of `[-32767, 32767]`. -/
theorem scaled_bounds (c : ℚ) (h₁ : -1 ≤ c) (h₂ : c ≤ 1) :
    ∃ z : ℚ, scaled (.fin c) = FP.fin z ∧ -32767 ≤ z ∧ z ≤ 32767 := by
  have hpow : (2 : ℚ) ^ ((15 : ℤ) - (binary32.prec : ℤ)) = 1 / 2 ^ 9 := by
    rw [binary32_prec]
    norm_num
  obtain ⟨z, hz, hz1, hz2⟩ := binary32.round_bounds (c * 32767) (-32767) 32767 15
    (-32767 * 2 ^ 9) (32767 * 2 ^ 9)
    (by rw [abs_lt]; norm_num; constructor <;> linarith)
    (fun _ => by norm_num) (by rw [binary32_emin]; norm_num)
    (by rw [hpow]; push_cast; ring) (by rw [hpow]; push_cast; ring)
    (by linarith) (by linarith)
    (by rw [binary32_emax]; norm_num) (by rw [binary32_emax]; norm_num)
  exact ⟨z, by simp only [scaled, FP.mul]; exact hz, hz1, hz2⟩

theorem floatToInt16_bounds (z : ℚ) (h₁ : -32767 ≤ z) (h₂ : z ≤ 32767) :
    floatToInt16 (.fin z) = some (truncZ z) ∧ -32767 ≤ truncZ z ∧ truncZ z ≤ 32767 := by
  refine ⟨?_, truncZ_bounds z (-32767) 32767 (by norm_num) (by norm_num)
    (by push_cast; exact h₁) (by push_cast; exact h₂)⟩
  simp only [floatToInt16]
  rw [if_pos ⟨by linarith, by linarith⟩]

/-- Lines 120-122 and 164-166 on a datum that is not a NaN: the scaled value is a number of
`[-32767, 32767]` and the conversion to `int16_t` is defined. -/
theorem quantize_spec (m : FP) (hm : m ≠ FP.nan) :
    ∃ z : ℚ, scaled (clamp m) = FP.fin z ∧ -32767 ≤ z ∧ z ≤ 32767 ∧
      quantize m = some (truncZ z) ∧ -32767 ≤ truncZ z ∧ truncZ z ≤ 32767 := by
  obtain ⟨c, hc, hc1, hc2⟩ := clamp_spec m hm
  obtain ⟨z, hz, hz1, hz2⟩ := scaled_bounds c hc1 hc2
  obtain ⟨h1, h2, h3⟩ := floatToInt16_bounds z hz1 hz2
  refine ⟨z, by rw [hc, hz], hz1, hz2, ?_, h2, h3⟩
  unfold quantize
  rw [hc, hz, h1]

/-- The downmix of two finite samples is not a NaN. -/
theorem downmix_ne_nan (a b : ℚ) : downmix (.fin a) (.fin b) ≠ FP.nan := by
  unfold downmix
  simp only [FP.add]
  cases h : binary32.round (a + b) with
  | nan => exact absurd h (Format.round_ne_nan _ _)
  | inf s => simp [FP.mul]
  | fin q =>
    simp only [FP.mul]
    exact Format.round_ne_nan _ _

/-- Quantisation of an integer multiple of `1 / 32767` inside `[-1, 1]`. -/
theorem quantize_fin (q : ℚ) (n : ℤ) (h₁ : -1 ≤ q) (h₂ : q ≤ 1) (hn : q * 32767 = (n : ℚ)) :
    quantize (.fin q) = some n := by
  have hb : |n| < 2 ^ 24 := by
    have h3 : (-32767 : ℚ) ≤ n := by rw [← hn]; linarith
    have h4 : (n : ℚ) ≤ 32767 := by rw [← hn]; linarith
    have h5 : -32767 ≤ n := by exact_mod_cast h3
    have h6 : n ≤ 32767 := by exact_mod_cast h4
    rw [abs_lt]
    omega
  unfold quantize
  rw [clamp_fin q h₁ h₂]
  simp only [scaled, FP.mul]
  rw [hn, round32_intCast n hb]
  simp only [floatToInt16]
  have h3 : (-32767 : ℚ) ≤ n := by rw [← hn]; linarith
  have h4 : (n : ℚ) ≤ 32767 := by rw [← hn]; linarith
  rw [if_pos ⟨by linarith, by linarith⟩, truncZ_intCast]

theorem toInt16_of_mem (x : ℤ) (h₁ : -32768 ≤ x) (h₂ : x ≤ 32767) : toInt16 x = x := by
  unfold toInt16
  omega

theorem tdiv_two_bounds (a : ℤ) (h₁ : -65536 ≤ a) (h₂ : a ≤ 65534) :
    -32768 ≤ Int.tdiv a 2 ∧ Int.tdiv a 2 ≤ 32767 := by
  rcases le_or_lt 0 a with h | h
  · rw [Int.tdiv_eq_ediv h (by norm_num)]
    omega
  · have h3 : Int.tdiv a 2 = -(Int.tdiv (-a) 2) := by
      rw [Int.neg_tdiv, neg_neg]
    rw [h3, Int.tdiv_eq_ediv (by omega) (by norm_num)]
    omega

/-! ## The converters at 16000 Hz and at 48000 Hz -/

theorem outputFrames_16000 (F : ℕ) (hF : F < 2 ^ 32) : outputFrames F 16000 = some F := by
  have h := outputFrames_multiple F 1 (by norm_num) (by norm_num) hF
  rw [Nat.mul_one, Nat.div_one] at h
  exact h

theorem inputIndex_16000 (i : ℕ) (hi : i < 2 ^ 32) : inputIndex i 16000 = some i := by
  have h := inputIndex_multiple i 1 (by norm_num) (by omega)
  rw [Nat.mul_one, Nat.mul_one] at h
  exact h

theorem outputFrames_48000 (F : ℕ) (hF : F < 2 ^ 32) : outputFrames F 48000 = some (F / 3) :=
  outputFrames_multiple F 3 (by norm_num) (by norm_num) hF

theorem inputIndex_48000 (i : ℕ) (hi : i * 3 < 2 ^ 32) : inputIndex i 48000 = some (i * 3) :=
  inputIndex_multiple i 3 (by norm_num) hi

theorem quantize_zero : quantize (.fin 0) = some 0 := by
  have h := quantize_fin 0 0 (by norm_num) (by norm_num) (by norm_num)
  exact h

theorem quantize_one : quantize (.fin 1) = some 32767 := by
  have h := quantize_fin 1 32767 (by norm_num) (by norm_num) (by norm_num)
  exact h

theorem quantize_neg_one : quantize (.fin (-1)) = some (-32767) := by
  have h := quantize_fin (-1) (-32767) (by norm_num) (by norm_num) (by norm_num)
  exact h

/-- Opposite samples cancel in the downmix. -/
theorem downmix_opposite (a : ℚ) : downmix (.fin a) (.fin (-a)) = FP.fin 0 := by
  unfold downmix
  simp only [FP.add, add_neg_cancel, Format.round_zero, FP.mul, zero_mul]

theorem monoFloatSample_16000 (input : List FP) (i : ℕ) (x : FP) (hi : i < 2 ^ 32)
    (hx : input[i]? = some x) : monoFloatSample input 16000 i = quantize x := by
  unfold monoFloatSample
  rw [inputIndex_16000 i hi]
  dsimp only
  rw [hx]

/-- C3 (amended): in the quantisation of the float converters (clamp to `[-1, 1]`, multiply
by `32767.0f`, truncate toward zero) a mono input sample of exactly `1.0` is emitted as
`32767` and a mono input sample of exactly `-1.0` is emitted as `-32767`. -/
theorem C3_unit_samples :
    ConvertMonoFloat32ToMono16 [.fin 1, .fin (-1)] 2 16000 = some [some 32767, some (-32767)] := by
  unfold ConvertMonoFloat32ToMono16
  rw [outputFrames_16000 2 (by norm_num)]
  have h0 := monoFloatSample_16000 [.fin 1, .fin (-1)] 0 (.fin 1) (by norm_num) rfl
  have h1 := monoFloatSample_16000 [.fin 1, .fin (-1)] 1 (.fin (-1)) (by norm_num) rfl
  rw [quantize_one] at h0
  rw [quantize_neg_one] at h1
  simp only [Option.map_some', List.range_succ, List.range_zero, List.nil_append,
    List.cons_append, List.map_cons, List.map_nil, h0, h1]

/-- C3 (counterexample): a mono input sample of exactly `-1.0` is not emitted as `-32768`:
the converter emits `-32767`. -/
theorem C3_counterexample :
    ConvertMonoFloat32ToMono16 [.fin (-1)] 1 16000 = some [some (-32767)] ∧
      ConvertMonoFloat32ToMono16 [.fin (-1)] 1 16000 ≠ some [some (-32768)] := by
  have h : ConvertMonoFloat32ToMono16 [.fin (-1)] 1 16000 = some [some (-32767)] := by
    unfold ConvertMonoFloat32ToMono16
    rw [outputFrames_16000 1 (by norm_num)]
    have h0 := monoFloatSample_16000 [.fin (-1)] 0 (.fin (-1)) (by norm_num) rfl
    rw [quantize_neg_one] at h0
    simp only [Option.map_some', List.range_succ, List.range_zero, List.nil_append,
      List.map_cons, List.map_nil, h0]
  refine ⟨h, ?_⟩
  rw [h]
  decide

/-! ## The stereo float converter -/

theorem getElem?_fin_of_finite (input : List FP) (t : ℕ) (ht : t < input.length)
    (hfin : ∀ x ∈ input, x.isFinite = true) : ∃ a : ℚ, input[t]? = some (FP.fin a) := by
  have hmem : input[t] ∈ input := List.getElem_mem ht
  have hf := hfin _ hmem
  rw [List.getElem?_eq_getElem ht]
  cases hx : input[t] with
  | fin a => exact ⟨a, rfl⟩
  | inf s => rw [hx] at hf; simp [FP.isFinite] at hf
  | nan => rw [hx] at hf; simp [FP.isFinite] at hf

/-- One sample of `ConvertStereoFloat32ToMono16` on a packet of finite samples. -/
theorem stereoFloatSample_spec (input : List FP) (F R n i : ℕ) (hR0 : 0 < R) (hR : R < 2 ^ 32)
    (hF : F < 2 ^ 32) (hn : outputFrames F R = some n) (hi : i < n)
    (hlen : 2 * F ≤ input.length) (hfin : ∀ x ∈ input, x.isFinite = true) :
    ∃ (k : ℕ) (a b z : ℚ), inputIndex i R = some k ∧ k < F ∧
      input[mulUInt32 k 2]? = some (FP.fin a) ∧
      input[addUInt32 (mulUInt32 k 2) 1]? = some (FP.fin b) ∧
      scaled (clamp (downmix (.fin a) (.fin b))) = FP.fin z ∧ -32767 ≤ z ∧ z ≤ 32767 ∧
      stereoFloatSample input R i = some (truncZ z) := by
  obtain ⟨k, hk, hkF⟩ := inputIndex_lt F R n i hR0 hR hF hn hi
  obtain ⟨h1, h2⟩ := mulUInt32_two_lt k F hkF
  obtain ⟨a, ha⟩ := getElem?_fin_of_finite input _ (lt_of_lt_of_le h1 hlen) hfin
  obtain ⟨b, hb⟩ := getElem?_fin_of_finite input _ (lt_of_lt_of_le h2 hlen) hfin
  obtain ⟨z, hz, hz1, hz2, hq, -, -⟩ := quantize_spec _ (downmix_ne_nan a b)
  refine ⟨k, a, b, z, hk, hkF, ha, hb, hz, hz1, hz2, ?_⟩
  unfold stereoFloatSample
  rw [hk]
  dsimp only
  rw [ha, hb]
  exact hq

theorem constantStereo_length (frames : ℕ) (left right : FP) :
    (constantStereo frames left right).length = 2 * frames := by
  simp [constantStereo]

theorem constantStereo_getElem? (frames t : ℕ) (left right : FP) (ht : t < 2 * frames) :
    (constantStereo frames left right)[t]? = some (if t % 2 = 0 then left else right) := by
  unfold constantStereo
  rw [List.getElem?_map, List.getElem?_range ht]
  rfl

theorem constantStereo_finite (frames : ℕ) (a b : ℚ) :
    ∀ x ∈ constantStereo frames (.fin a) (.fin b), x.isFinite = true := by
  intro x hx
  unfold constantStereo at hx
  rw [List.mem_map] at hx
  obtain ⟨t, -, rfl⟩ := hx
  split_ifs <;> rfl

/-- One sample of `ConvertStereoFloat32ToMono16` at 48000 Hz on a packet of constant
frames. -/
theorem stereoFloatSample_constant (frames i : ℕ) (left right : FP) (hi : i * 3 < frames)
    (hF : frames < 2 ^ 31) :
    stereoFloatSample (constantStereo frames left right) 48000 i =
      quantize (downmix left right) := by
  unfold stereoFloatSample
  rw [inputIndex_48000 i (by omega)]
  dsimp only
  have e1 : mulUInt32 (i * 3) 2 = i * 6 := by
    unfold mulUInt32
    rw [Nat.mod_eq_of_lt (by omega)]
    ring
  have e2 : addUInt32 (i * 6) 1 = i * 6 + 1 := by
    unfold addUInt32
    rw [Nat.mod_eq_of_lt (by omega)]
  rw [e1, e2, constantStereo_getElem? frames (i * 6) left right (by omega),
    constantStereo_getElem? frames (i * 6 + 1) left right (by omega)]
  rw [if_pos (by omega), if_neg (by omega)]

theorem inputIndex_spec_multiple (i j : ℕ) (hR : 16000 * j < 2 ^ 32) (hij : i * j < 2 ^ 32) :
    inputIndex i (16000 * j) = some (specInputIndex i (16000 * j)) := by
  rw [inputIndex_multiple i j hR hij]
  unfold specInputIndex TARGET_SAMPLE_RATE
  congr 1
  rw [Nat.mul_comm 16000 j, ← Nat.mul_assoc]
  exact (Nat.mul_div_cancel (i * j) (by norm_num)).symm

/-- C6 (amended): for every stereo `float` packet of `F` frames of finite samples at a rate
`R > 0` (with `floor(F * 16000 / R)` a `UINT32`), `ConvertStereoFloat32ToMono16` emits `n`
samples, `n` being `floor(F * 16000 / R)` or one less, and exactly `floor(F * 16000 / R)`
when `R` is a multiple of 16000 or `R = 44100`; output sample `i < n` is the truncation
toward zero of `clamp((L + R) * 0.5f) * 32767.0f`, every operation rounded to `float`,
where `L` and `R`
are read at positions `2 * k` and `2 * k + 1` (in `UINT32` arithmetic) and `k < F` is the
double-precision index `(UINT32)(i * ratio)`, equal to `floor(i * R / 16000)` when `R` is a
multiple of 16000.  Hence a frame with left `0.5` and right `-0.5` gives `0`, and a packet of
480 frames at 48000 Hz that all are `(1.0, -1.0)` gives exactly 160 samples, all `0`. -/
theorem C6_stereo_float_samples :
    (∀ (input : List FP) (F R : ℕ), 0 < R → R < 2 ^ 32 → F < 2 ^ 32 →
      specOutputFrames F R < 2 ^ 32 → 2 * F ≤ input.length →
      (∀ x ∈ input, x.isFinite = true) →
      ∃ (n : ℕ) (out : List Sample),
        ConvertStereoFloat32ToMono16 input F R = some out ∧ out.length = n ∧
        n ≤ specOutputFrames F R ∧ specOutputFrames F R ≤ n + 1 ∧
        (16000 ∣ R ∨ R = 44100 → n = specOutputFrames F R) ∧
        ∀ i : ℕ, i < n → ∃ (k : ℕ) (a b z : ℚ),
          inputIndex i R = some k ∧ k < F ∧ (16000 ∣ R → k = specInputIndex i R) ∧
          input[mulUInt32 k 2]? = some (FP.fin a) ∧
          input[addUInt32 (mulUInt32 k 2) 1]? = some (FP.fin b) ∧
          scaled (clamp (downmix (.fin a) (.fin b))) = FP.fin z ∧
          out[i]? = some (some (truncZ z))) ∧
    quantize (downmix (.fin (1 / 2)) (.fin (-(1 / 2)))) = some 0 ∧
    ConvertStereoFloat32ToMono16 (constantStereo 480 (.fin 1) (.fin (-1))) 480 48000 =
      some (List.replicate 160 (some 0)) := by
  refine ⟨?_, ?_, ?_⟩
  · intro input F R hR0 hR hF hQ hlen hfin
    obtain ⟨n, hn, h1, h2, h3⟩ := outputFrames_count F R hR0 hR hF hQ
    refine ⟨n, (List.range n).map (stereoFloatSample input R), ?_, by simp, h1, h2, h3, ?_⟩
    · unfold ConvertStereoFloat32ToMono16
      rw [hn]
      rfl
    · intro i hi
      obtain ⟨k, a, b, z, hk, hkF, ha, hb, hz, -, -, hs⟩ :=
        stereoFloatSample_spec input F R n i hR0 hR hF hn hi hlen hfin
      refine ⟨k, a, b, z, hk, hkF, ?_, ha, hb, hz, ?_⟩
      · rintro ⟨j, rfl⟩
        have hj : 0 < j := by omega
        have hnj : n = F / j := by
          rw [outputFrames_multiple F j hj hR hF] at hn
          exact (Option.some.inj hn).symm
        have hij : i * j < F := by
          have h4 : i + 1 ≤ F / j := by omega
          have h5 : (i + 1) * j ≤ F := (Nat.le_div_iff_mul_le hj).mp h4
          have h6 : (i + 1) * j = i * j + j := by ring
          omega
        rw [inputIndex_spec_multiple i j hR (by omega)] at hk
        exact (Option.some.inj hk).symm
      · rw [List.getElem?_map, List.getElem?_range hi, Option.map_some', hs]
  · rw [downmix_opposite, quantize_zero]
  · unfold ConvertStereoFloat32ToMono16
    rw [outputFrames_48000 480 (by norm_num)]
    have hall : ∀ i ∈ List.range 160,
        stereoFloatSample (constantStereo 480 (.fin 1) (.fin (-1))) 48000 i = some 0 := by
      intro i hi
      rw [List.mem_range] at hi
      rw [stereoFloatSample_constant 480 i _ _ (by omega) (by norm_num), downmix_opposite,
        quantize_zero]
    have hmap : (List.range 160).map
        (stereoFloatSample (constantStereo 480 (.fin 1) (.fin (-1))) 48000) =
        List.replicate 160 (some 0) := by
      rw [List.map_congr_left hall, List.map_const', List.length_range]
    have hdiv : 480 / 3 = 160 := by norm_num
    rw [hdiv, Option.map_some', hmap]

/-- C6 (witness): the packet of 480 frames `(1.0, -1.0)` at 48000 Hz. -/
theorem C6_stereo_float_samples_witness :
    ∃ (n : ℕ) (out : List Sample),
      ConvertStereoFloat32ToMono16 (constantStereo 480 (.fin 1) (.fin (-1))) 480 48000 = some out ∧
      out.length = n ∧ n ≤ specOutputFrames 480 48000 ∧ specOutputFrames 480 48000 ≤ n + 1 ∧
      (16000 ∣ 48000 ∨ 48000 = 44100 → n = specOutputFrames 480 48000) ∧
      ∀ i : ℕ, i < n → ∃ (k : ℕ) (a b z : ℚ),
        inputIndex i 48000 = some k ∧ k < 480 ∧ (16000 ∣ 48000 → k = specInputIndex i 48000) ∧
        (constantStereo 480 (.fin 1) (.fin (-1)))[mulUInt32 k 2]? = some (FP.fin a) ∧
        (constantStereo 480 (.fin 1) (.fin (-1)))[addUInt32 (mulUInt32 k 2) 1]? =
          some (FP.fin b) ∧
        scaled (clamp (downmix (.fin a) (.fin b))) = FP.fin z ∧
        out[i]? = some (some (truncZ z)) :=
  C6_stereo_float_samples.1 (constantStereo 480 (.fin 1) (.fin (-1))) 480 48000 (by norm_num)
    (by norm_num) (by norm_num) (by decide)
    (by rw [constantStereo_length]) (constantStereo_finite 480 1 (-1))

theorem tinySample_downmix : downmix (.fin tinySample) (.fin tinySample) = FP.fin tinySample := by
  unfold downmix tinySample
  simp only [FP.add]
  have h1 := binary32.round_dyadic 32769 (-29) (by rw [binary32_prec]; norm_num [abs_lt])
    (by rw [binary32_prec, binary32_emin]; norm_num)
    (by rw [binary32_emax]; norm_num [abs_lt])
  have e1 : (32769 : ℚ) / 1073741824 + 32769 / 1073741824 = ((32769 : ℤ) : ℚ) * 2 ^ (-29 : ℤ) := by
    norm_num
  rw [e1, h1]
  simp only [FP.mul]
  have h2 := binary32.round_dyadic 32769 (-30) (by rw [binary32_prec]; norm_num [abs_lt])
    (by rw [binary32_prec, binary32_emin]; norm_num)
    (by rw [binary32_emax]; norm_num [abs_lt])
  have e2 : ((32769 : ℤ) : ℚ) * 2 ^ (-29 : ℤ) * (1 / 2) = ((32769 : ℤ) : ℚ) * 2 ^ (-30 : ℤ) := by
    norm_num
  rw [e2, h2]
  norm_num

theorem tinySample_quantize : quantize (.fin tinySample) = some 1 := by
  unfold quantize
  rw [clamp_fin tinySample (by norm_num [tinySample]) (by norm_num [tinySample])]
  unfold tinySample
  simp only [scaled, FP.mul]
  have h := binary32.round_eval ((32769 : ℚ) / 1073741824 * 32767) (-1) 16777216
    (by norm_num [abs_of_pos]) (by norm_num [abs_of_pos]) (by rw [binary32_emin]; norm_num)
    (by rw [binary32_prec]; norm_num [abs_lt])
    (by rw [binary32_prec, binary32_emax]; norm_num [abs_lt])
  rw [h, binary32_prec]
  have e : ((16777216 : ℤ) : ℚ) * 2 ^ ((-1 : ℤ) - (((24 : ℕ) : ℤ) - 1)) = ((1 : ℤ) : ℚ) := by
    norm_num
  rw [e]
  simp only [floatToInt16]
  rw [if_pos (by norm_num), truncZ_intCast]

/-- C6 (counterexample): the frame `(x, x)` with `x = 2^-15 + 2^-30`, a `float`, is emitted
as `1` although `32767 * clamp((x + x) / 2, -1, 1) = 1 - 2^-30` truncates to `0`; and at
16001 Hz, with 16001 frames of zeros, output sample 15999 is not emitted although
`15999 < floor(16001 * 16000 / 16001)`. -/
theorem C6_counterexample :
    binary32.round tinySample = FP.fin tinySample ∧
      ConvertStereoFloat32ToMono16 [.fin tinySample, .fin tinySample] 1 16000 = some [some 1] ∧
      truncZ (32767 * max (-1) (min 1 ((tinySample + tinySample) / 2))) = 0 ∧
      (ConvertStereoFloat32ToMono16 (constantStereo 16001 (.fin 0) (.fin 0)) 16001 16001).map
        (fun out => out[15999]?) = some none ∧
      15999 < specOutputFrames 16001 16001 := by
  refine ⟨?_, ?_, ?_, ?_, by decide⟩
  · have h := binary32.round_dyadic 32769 (-30) (by rw [binary32_prec]; norm_num [abs_lt])
      (by rw [binary32_prec, binary32_emin]; norm_num)
      (by rw [binary32_emax]; norm_num [abs_lt])
    have e : tinySample = ((32769 : ℤ) : ℚ) * 2 ^ (-30 : ℤ) := by
      norm_num [tinySample]
    rw [e, h]
  · unfold ConvertStereoFloat32ToMono16
    rw [outputFrames_16000 1 (by norm_num)]
    have h0 : stereoFloatSample [.fin tinySample, .fin tinySample] 16000 0 = some 1 := by
      unfold stereoFloatSample
      rw [inputIndex_16000 0 (by norm_num)]
      have e1 : mulUInt32 0 2 = 0 := by decide
      have e2 : addUInt32 0 1 = 1 := by decide
      dsimp only
      rw [e1, e2]
      have l0 : [FP.fin tinySample, FP.fin tinySample][0]? = some (FP.fin tinySample) := rfl
      have l1 : [FP.fin tinySample, FP.fin tinySample][1]? = some (FP.fin tinySample) := rfl
      rw [l0, l1]
      dsimp only
      rw [tinySample_downmix, tinySample_quantize]
    simp only [Option.map_some', List.range_succ, List.range_zero, List.nil_append,
      List.map_cons, List.map_nil, h0]
  · have e : (32767 : ℚ) * max (-1) (min 1 ((tinySample + tinySample) / 2)) =
        1073741823 / 1073741824 := by
      rw [min_eq_right (by norm_num [tinySample]), max_eq_right (by norm_num [tinySample])]
      norm_num [tinySample]
    rw [e]
    unfold truncZ
    rw [if_pos (by norm_num)]
    norm_num
  · have hlen := length_ConvertStereoFloat32ToMono16 (constantStereo 16001 (.fin 0) (.fin 0))
      16001 16001
    rw [outputFrames_16001] at hlen
    obtain ⟨out, hout, hl⟩ := Option.map_eq_some'.mp hlen
    rw [hout, Option.map_some']
    congr 1
    exact List.getElem?_eq_none (by omega)

/-! ## The silence path -/

theorem silenceBytes_eq (F R : ℕ) :
    silenceBytes F R = (outputFrames F R).map fun n => (n * 2) % 2 ^ 64 := rfl

theorem outputFrames_lt (F R n : ℕ) (h : outputFrames F R = some n) : n < 2 ^ 32 := by
  unfold outputFrames at h
  cases hq : FP.div binary64 (.fin F) (ratio R) with
  | nan => rw [hq] at h; simp [toUInt32] at h
  | inf s => rw [hq] at h; simp [toUInt32] at h
  | fin q =>
    rw [hq] at h
    simp only [toUInt32] at h
    split_ifs at h with hc
    simp only [Option.some.injEq] at h
    unfold truncZ at h
    have h32 : (2 : ℚ) ^ 32 = ((4294967296 : ℤ) : ℚ) := by norm_num
    split_ifs at h with h0
    · have h1 : ⌊q⌋ < 4294967296 := by
        rw [Int.floor_lt, ← h32]
        exact hc.2
      omega
    · have h1 : ⌈q⌉ ≤ 0 := Int.ceil_le.mpr (by push_cast; linarith)
      have h2 : ⌈q⌉.toNat = 0 := Int.toNat_eq_zero.mpr h1
      omega

theorem silenceBytes_of_outputFrames (F R n : ℕ) (h : outputFrames F R = some n) :
    silenceBytes F R = some (2 * n) := by
  have hn := outputFrames_lt F R n h
  rw [silenceBytes_eq, h, Option.map_some']
  congr 1
  omega

theorem outputFrames_32002 : outputFrames 32002 16001 = some 31999 := by
  unfold outputFrames
  rw [ratio_16001]
  simp only [FP.div]
  rw [if_neg (by norm_num)]
  have h := binary64.round_eval (((32002 : ℕ) : ℚ) / (4503881102347207 / 4503599627370496)) 14
    8796093022207999
    (by norm_num [abs_of_pos]) (by norm_num [abs_of_pos]) (by rw [binary64_emin]; norm_num)
    (by rw [binary64_prec]; norm_num [abs_lt])
    (by rw [binary64_prec, binary64_emax]; norm_num [abs_lt])
  rw [h, binary64_prec, toUInt32_fin (by norm_num) (by norm_num)]
  norm_num
  rfl

theorem toSamples_zeroBytes (n : ℕ) :
    (Chunk.zeroBytes (2 * n)).toSamples = List.replicate n (some 0) := by
  simp [Chunk.toSamples]

/-- C4 (amended): for every native format, supported by the dispatch or not, with a rate
`R > 0`, and every packet of `F` frames flagged silent (with `floor(F * 16000 / R)` a
`UINT32`, and the silence buffer allocated), the pass of the capture loop does not consult
the dispatch and emits `n` samples of two zero bytes each, where `n` is the count the three
converters emit for `F` frames at the same rate: `floor(F * 16000 / R)` or one less, and
exactly `floor(F * 16000 / R)` when `R` is a multiple of 16000 or `R = 44100`. -/
theorem C4_silent_packet (pwfx : WAVEFORMATEX) (cap : ℕ) (p : Packet)
    (hR0 : 0 < pwfx.nSamplesPerSec) (hR : pwfx.nSamplesPerSec < 2 ^ 32)
    (hF : p.numFramesAvailable < 2 ^ 32)
    (hQ : specOutputFrames p.numFramesAvailable pwfx.nSamplesPerSec < 2 ^ 32)
    (hs : p.flags &&& AUDCLNT_BUFFERFLAGS_SILENT ≠ 0) :
    ∃ n : ℕ,
      n ≤ specOutputFrames p.numFramesAvailable pwfx.nSamplesPerSec ∧
      specOutputFrames p.numFramesAvailable pwfx.nSamplesPerSec ≤ n + 1 ∧
      (16000 ∣ pwfx.nSamplesPerSec ∨ pwfx.nSamplesPerSec = 44100 →
        n = specOutputFrames p.numFramesAvailable pwfx.nSamplesPerSec) ∧
      handlePacket pwfx cap p true = ([.zeroBytes (2 * n)], .continue) ∧
      (Chunk.zeroBytes (2 * n)).toSamples = List.replicate n (some 0) ∧
      (∀ (pollHr : ℤ) (len : ℕ) (bufferHr releaseHr : ℤ), ¬ (FAILED pollHr = true) → len ≠ 0 →
        ¬ (FAILED bufferHr = true) → ¬ (FAILED releaseHr = true) →
        loopBody pwfx cap ⟨pollHr, len, bufferHr, p, true, releaseHr⟩ =
          ⟨[.zeroBytes (2 * n)], true, .continue⟩) ∧
      (∀ (floats : List FP) (ints : List Int16),
        (ConvertStereoFloat32ToMono16 floats p.numFramesAvailable pwfx.nSamplesPerSec).map
          List.length = some n ∧
        (ConvertMonoFloat32ToMono16 floats p.numFramesAvailable pwfx.nSamplesPerSec).map
          List.length = some n ∧
        (ConvertStereoInt16ToMono16 ints p.numFramesAvailable pwfx.nSamplesPerSec).map
          List.length = some n) := by
  obtain ⟨n, hn, h1, h2, h3⟩ :=
    outputFrames_count p.numFramesAvailable pwfx.nSamplesPerSec hR0 hR hF hQ
  have hh := handlePacket_silent pwfx cap p (2 * n) hs (silenceBytes_of_outputFrames _ _ n hn)
  refine ⟨n, h1, h2, h3, hh, toSamples_zeroBytes n, ?_, ?_⟩
  · intro pollHr len bufferHr releaseHr hp hl hb hr
    rw [loopBody_handled pwfx cap pollHr len bufferHr p true releaseHr _ _ hp hl hb hh,
      if_pos rfl, if_neg hr]
  · intro floats ints
    rw [length_ConvertStereoFloat32ToMono16, length_ConvertMonoFloat32ToMono16,
      length_ConvertStereoInt16ToMono16, hn]
    exact ⟨rfl, rfl, rfl⟩

/-- C4 (witness): a silent packet of 480 frames in an unsupported 48000 Hz format. -/
theorem C4_silent_packet_witness :
    ∃ n : ℕ,
      n ≤ specOutputFrames 480 48000 ∧ specOutputFrames 480 48000 ≤ n + 1 ∧
      (16000 ∣ 48000 ∨ 48000 = 44100 → n = specOutputFrames 480 48000) ∧
      handlePacket surroundFormat 7 (silentPacket 480 6) true = ([.zeroBytes (2 * n)], .continue) ∧
      (Chunk.zeroBytes (2 * n)).toSamples = List.replicate n (some 0) ∧
      (∀ (pollHr : ℤ) (len : ℕ) (bufferHr releaseHr : ℤ), ¬ (FAILED pollHr = true) → len ≠ 0 →
        ¬ (FAILED bufferHr = true) → ¬ (FAILED releaseHr = true) →
        loopBody surroundFormat 7 ⟨pollHr, len, bufferHr, silentPacket 480 6, true, releaseHr⟩ =
          ⟨[.zeroBytes (2 * n)], true, .continue⟩) ∧
      (∀ (floats : List FP) (ints : List Int16),
        (ConvertStereoFloat32ToMono16 floats 480 48000).map List.length = some n ∧
        (ConvertMonoFloat32ToMono16 floats 480 48000).map List.length = some n ∧
        (ConvertStereoInt16ToMono16 ints 480 48000).map List.length = some n) :=
  C4_silent_packet surroundFormat 7 (silentPacket 480 6) (by decide) (by decide) (by decide)
    (by decide) (by decide)

/-- C4 (counterexample): at 16001 Hz a silent packet of 32002 frames is emitted as 63998
zero bytes, that is 31999 samples, although `floor(32002 * 16000 / 16001) = 32000`. -/
theorem C4_counterexample :
    handlePacket oddRateFormat 40000 (silentPacket 32002 2) true =
        ([.zeroBytes 63998], .continue) ∧
      (Chunk.zeroBytes 63998).toSamples = List.replicate 31999 (some 0) ∧
      specOutputFrames 32002 16001 = 32000 := by
  refine ⟨?_, toSamples_zeroBytes 31999, by decide⟩
  exact handlePacket_silent oddRateFormat 40000 (silentPacket 32002 2) 63998 (by decide)
    (silenceBytes_of_outputFrames 32002 16001 31999 outputFrames_32002)

/-! ## The dispatch -/

theorem dispatch_stereoFloat32 (pwfx : WAVEFORMATEX) :
    dispatch pwfx = some .stereoFloat32 ↔
      pwfx.wFormatTag = WAVE_FORMAT_EXTENSIBLE ∧
        pwfx.SubFormat = KSDATAFORMAT_SUBTYPE_IEEE_FLOAT ∧ pwfx.nChannels = 2 := by
  unfold dispatch
  constructor
  · intro h
    split_ifs at h with h1 h2 h3 h4 h5 h6 h7 h8 <;> simp_all
  · rintro ⟨h1, h2, h3⟩
    rw [if_pos h1, if_pos h2, if_pos h3]

theorem dispatch_monoFloat32 (pwfx : WAVEFORMATEX) :
    dispatch pwfx = some .monoFloat32 ↔
      pwfx.wFormatTag = WAVE_FORMAT_EXTENSIBLE ∧
        pwfx.SubFormat = KSDATAFORMAT_SUBTYPE_IEEE_FLOAT ∧ pwfx.nChannels = 1 := by
  unfold dispatch
  constructor
  · intro h
    split_ifs at h with h1 h2 h3 h4 h5 h6 h7 h8 <;> simp_all
  · rintro ⟨h1, h2, h3⟩
    rw [if_pos h1, if_pos h2, if_neg (by omega), if_pos h3]

theorem dispatch_stereoInt16 (pwfx : WAVEFORMATEX) :
    dispatch pwfx = some .stereoInt16 ↔
      pwfx.isPCM ∧ pwfx.nChannels = 2 ∧ pwfx.wBitsPerSample = 16 := by
  unfold dispatch WAVEFORMATEX.isPCM
  have hne : KSDATAFORMAT_SUBTYPE_PCM ≠ KSDATAFORMAT_SUBTYPE_IEEE_FLOAT := by decide
  have hne2 : WAVE_FORMAT_PCM ≠ WAVE_FORMAT_EXTENSIBLE := by decide
  constructor
  · intro h
    split_ifs at h with h1 h2 h3 h4 h5 h6 h7 h8 <;> simp_all
  · rintro ⟨h1 | h1, h2, h3⟩
    · rw [if_pos h1.1, if_neg (by rw [h1.2]; exact hne), if_pos h1.2, if_pos ⟨h2, h3⟩]
    · rw [if_neg (by rw [h1]; exact hne2), if_pos h1, if_pos ⟨h2, h3⟩]

theorem dispatch_none (pwfx : WAVEFORMATEX) :
    dispatch pwfx = none ↔
      ¬ (pwfx.wFormatTag = WAVE_FORMAT_EXTENSIBLE ∧
          pwfx.SubFormat = KSDATAFORMAT_SUBTYPE_IEEE_FLOAT ∧ pwfx.nChannels = 2) ∧
      ¬ (pwfx.wFormatTag = WAVE_FORMAT_EXTENSIBLE ∧
          pwfx.SubFormat = KSDATAFORMAT_SUBTYPE_IEEE_FLOAT ∧ pwfx.nChannels = 1) ∧
      ¬ (pwfx.isPCM ∧ pwfx.nChannels = 2 ∧ pwfx.wBitsPerSample = 16) := by
  rw [← dispatch_stereoFloat32, ← dispatch_monoFloat32, ← dispatch_stereoInt16]
  cases h : dispatch pwfx with
  | none => simp
  | some c => cases c <;> simp

/-- A descriptor with the plain tag `WAVE_FORMAT_IEEE_FLOAT` selects no converter. -/
theorem dispatch_plain_float (pwfx : WAVEFORMATEX)
    (ht : pwfx.wFormatTag = WAVE_FORMAT_IEEE_FLOAT) : dispatch pwfx = none := by
  have h1 : WAVE_FORMAT_IEEE_FLOAT ≠ WAVE_FORMAT_EXTENSIBLE := by decide
  have h2 : WAVE_FORMAT_IEEE_FLOAT ≠ WAVE_FORMAT_PCM := by decide
  unfold dispatch
  rw [if_neg (by rw [ht]; exact h1), if_neg (by rw [ht]; exact h2)]

/-- Among the descriptors of 32 bits per sample whose tag is not `WAVE_FORMAT_IEEE_FLOAT`,
the float32 formats are those the dispatch tests for. -/
theorem isFloat32_iff (w : WAVEFORMATEX) (ht : w.wFormatTag ≠ WAVE_FORMAT_IEEE_FLOAT)
    (hb : w.wBitsPerSample = 32) :
    w.isFloat32 ↔
      w.wFormatTag = WAVE_FORMAT_EXTENSIBLE ∧ w.SubFormat = KSDATAFORMAT_SUBTYPE_IEEE_FLOAT := by
  unfold WAVEFORMATEX.isFloat32
  constructor
  · rintro ⟨h | h, -⟩
    · exact absurd h ht
    · exact h
  · intro h
    exact ⟨Or.inr h, hb⟩

/-- C5 (amended): for every native format descriptor and every non-silent packet, the
dispatch of the capture loop selects the stereo-float converter exactly when the descriptor
has the tag `WAVE_FORMAT_EXTENSIBLE`, the sub-format `KSDATAFORMAT_SUBTYPE_IEEE_FLOAT` and 2
channels, and the mono-float converter exactly when it has that tag and sub-format and 1
channel: the bit depth is not tested, and a descriptor with the plain tag
`WAVE_FORMAT_IEEE_FLOAT` selects no converter.  Among the descriptors of 32 bits per sample
whose tag is not `WAVE_FORMAT_IEEE_FLOAT` this is exactly (float32, 2 channels) and
(float32, 1 channel).  The stereo-int16 converter is selected exactly when the descriptor is
integer PCM (the tag `WAVE_FORMAT_PCM`, or the extensible tag with the PCM sub-format) with
2 channels and 16 bits per sample.  The selected converter is the one run on the packet and
its samples are what the pass writes; for every other descriptor no converter is run,
nothing is written for that packet, `ReleaseBuffer` is still called and the loop goes on to
the next poll. -/
theorem C5_dispatch (pwfx : WAVEFORMATEX) (cap : ℕ) (p : Packet) (sa : Bool)
    (hs : ¬ (p.flags &&& AUDCLNT_BUFFERFLAGS_SILENT ≠ 0)) :
    (dispatch pwfx = some .stereoFloat32 ↔
      pwfx.wFormatTag = WAVE_FORMAT_EXTENSIBLE ∧
        pwfx.SubFormat = KSDATAFORMAT_SUBTYPE_IEEE_FLOAT ∧ pwfx.nChannels = 2) ∧
    (dispatch pwfx = some .monoFloat32 ↔
      pwfx.wFormatTag = WAVE_FORMAT_EXTENSIBLE ∧
        pwfx.SubFormat = KSDATAFORMAT_SUBTYPE_IEEE_FLOAT ∧ pwfx.nChannels = 1) ∧
    (dispatch pwfx = some .stereoInt16 ↔
      pwfx.isPCM ∧ pwfx.nChannels = 2 ∧ pwfx.wBitsPerSample = 16) ∧
    (pwfx.wFormatTag ≠ WAVE_FORMAT_IEEE_FLOAT → pwfx.wBitsPerSample = 32 →
      (dispatch pwfx = some .stereoFloat32 ↔ pwfx.isFloat32 ∧ pwfx.nChannels = 2) ∧
      (dispatch pwfx = some .monoFloat32 ↔ pwfx.isFloat32 ∧ pwfx.nChannels = 1)) ∧
    (pwfx.wFormatTag = WAVE_FORMAT_IEEE_FLOAT → dispatch pwfx = none) ∧
    (∀ (c : Converter) (s : List Sample), dispatch pwfx = some c → c.run pwfx p = some s →
      s.length ≤ cap → handlePacket pwfx cap p sa = ([.samples s], .continue)) ∧
    (Converter.run .stereoFloat32 pwfx p =
      ConvertStereoFloat32ToMono16 p.floatData p.numFramesAvailable pwfx.nSamplesPerSec) ∧
    (Converter.run .monoFloat32 pwfx p =
      ConvertMonoFloat32ToMono16 p.floatData p.numFramesAvailable pwfx.nSamplesPerSec) ∧
    (Converter.run .stereoInt16 pwfx p =
      ConvertStereoInt16ToMono16 p.int16Data p.numFramesAvailable pwfx.nSamplesPerSec) ∧
    (¬ (pwfx.wFormatTag = WAVE_FORMAT_EXTENSIBLE ∧
          pwfx.SubFormat = KSDATAFORMAT_SUBTYPE_IEEE_FLOAT ∧ pwfx.nChannels = 2) →
      ¬ (pwfx.wFormatTag = WAVE_FORMAT_EXTENSIBLE ∧
          pwfx.SubFormat = KSDATAFORMAT_SUBTYPE_IEEE_FLOAT ∧ pwfx.nChannels = 1) →
      ¬ (pwfx.isPCM ∧ pwfx.nChannels = 2 ∧ pwfx.wBitsPerSample = 16) →
      dispatch pwfx = none ∧ handlePacket pwfx cap p sa = ([], .continue) ∧
      ∀ (pollHr : ℤ) (len : ℕ) (bufferHr releaseHr : ℤ) (rest : List Iteration),
        ¬ (FAILED pollHr = true) → len ≠ 0 → ¬ (FAILED bufferHr = true) →
        ¬ (FAILED releaseHr = true) →
        loopBody pwfx cap ⟨pollHr, len, bufferHr, p, sa, releaseHr⟩ = ⟨[], true, .continue⟩ ∧
        pump pwfx cap (⟨pollHr, len, bufferHr, p, sa, releaseHr⟩ :: rest) =
          ((pump pwfx cap rest).1, (pump pwfx cap rest).2.1 + 1, (pump pwfx cap rest).2.2)) := by
  refine ⟨dispatch_stereoFloat32 pwfx, dispatch_monoFloat32 pwfx, dispatch_stereoInt16 pwfx,
    ?_, dispatch_plain_float pwfx, ?_, rfl, rfl, rfl, ?_⟩
  · intro ht hb
    rw [dispatch_stereoFloat32, dispatch_monoFloat32, isFloat32_iff pwfx ht hb]
    exact ⟨by tauto, by tauto⟩
  · intro c s hd hr hl
    rw [handlePacket_converted pwfx cap p sa c s hs hd hr, if_pos hl]
  · intro h1 h2 h3
    have hd : dispatch pwfx = none := (dispatch_none pwfx).mpr ⟨h1, h2, h3⟩
    have hh := handlePacket_unsupported pwfx cap p sa hs hd
    refine ⟨hd, hh, ?_⟩
    intro pollHr len bufferHr releaseHr rest hp hl hb hr
    have hbody : loopBody pwfx cap ⟨pollHr, len, bufferHr, p, sa, releaseHr⟩ =
        ⟨[], true, .continue⟩ := by
      rw [loopBody_handled pwfx cap pollHr len bufferHr p sa releaseHr _ _ hp hl hb hh,
        if_pos rfl, if_neg hr]
    refine ⟨hbody, ?_⟩
    rw [pump_cons pwfx cap _ rest _ _ _ hbody]
    simp

/-- C5 (witness): a six-channel float format is dropped and the loop goes on. -/
theorem C5_dispatch_witness :
    dispatch surroundFormat = none ∧
      handlePacket surroundFormat 16001 monoInt16Packet true = ([], .continue) ∧
      ∀ (pollHr : ℤ) (len : ℕ) (bufferHr releaseHr : ℤ) (rest : List Iteration),
        ¬ (FAILED pollHr = true) → len ≠ 0 → ¬ (FAILED bufferHr = true) →
        ¬ (FAILED releaseHr = true) →
        loopBody surroundFormat 16001 ⟨pollHr, len, bufferHr, monoInt16Packet, true, releaseHr⟩ =
          ⟨[], true, .continue⟩ ∧
        pump surroundFormat 16001
            (⟨pollHr, len, bufferHr, monoInt16Packet, true, releaseHr⟩ :: rest) =
          ((pump surroundFormat 16001 rest).1, (pump surroundFormat 16001 rest).2.1 + 1,
            (pump surroundFormat 16001 rest).2.2) :=
  (C5_dispatch surroundFormat 16001 monoInt16Packet true (by decide)).2.2.2.2.2.2.2.2.2
    (by decide) (by decide) (by unfold WAVEFORMATEX.isPCM; decide)

/-- C5 (counterexample): the stereo format of 32-bit floats announced by the plain tag
`WAVE_FORMAT_IEEE_FLOAT` is (float32, 2 channels), yet the dispatch selects no converter and
the pass writes nothing for the packet `(0.5, -0.5)`; and the extensible stereo format of
64-bit IEEE floats is not float32, yet the dispatch selects the stereo-float converter. -/
theorem C5_counterexample :
    (plainFloatFormat.isFloat32 ∧ plainFloatFormat.nChannels = 2 ∧
      dispatch plainFloatFormat = none ∧
      ¬ (dispatch plainFloatFormat = some .stereoFloat32 ↔
        plainFloatFormat.isFloat32 ∧ plainFloatFormat.nChannels = 2) ∧
      loopBody plainFloatFormat 16001 ⟨S_OK, 1, S_OK, halfFramePacket, true, S_OK⟩ =
        ⟨[], true, .continue⟩) ∧
    (¬ doubleFormat.isFloat32 ∧ doubleFormat.nChannels = 2 ∧
      dispatch doubleFormat = some .stereoFloat32 ∧
      ¬ (dispatch doubleFormat = some .stereoFloat32 ↔
        doubleFormat.isFloat32 ∧ doubleFormat.nChannels = 2)) := by
  have hf : plainFloatFormat.isFloat32 := by decide
  have hd : dispatch plainFloatFormat = none := by decide
  have hg : ¬ doubleFormat.isFloat32 := by decide
  have he : dispatch doubleFormat = some .stereoFloat32 := by decide
  refine ⟨⟨hf, rfl, hd, ?_, ?_⟩, hg, rfl, he, ?_⟩
  · intro h
    have h2 := h.mpr ⟨hf, rfl⟩
    rw [hd] at h2
    exact Option.noConfusion h2
  · have hh := handlePacket_unsupported plainFloatFormat 16001 halfFramePacket true (by decide)
      hd
    have hb := loopBody_handled plainFloatFormat 16001 S_OK 1 S_OK halfFramePacket true S_OK _ _
      (by decide) (by decide) (by decide) hh
    rw [if_pos rfl, if_neg (by decide)] at hb
    exact hb
  · intro h
    exact hg (h.mp he).1

/-! ## The stereo int16 converter at 16000 Hz -/

theorem averageInt16_eq (left right : Int16) :
    averageInt16 left right = Int.tdiv (left.val + right.val) 2 := by
  have hb := tdiv_two_bounds (left.val + right.val)
    (by have := left.property.1; have := right.property.1; omega)
    (by have := left.property.2; have := right.property.2; omega)
  exact toInt16_of_mem _ hb.1 hb.2

theorem averageInt16_self (x : Int16) : averageInt16 x x = x.val := by
  rw [averageInt16_eq]
  have h : x.val + x.val = x.val * 2 := by ring
  rw [h]
  exact Int.mul_tdiv_cancel _ (by norm_num)

theorem stereoInt16Sample_16000 (input : List Int16) (i : ℕ) (l r : Int16) (hi : i < 2 ^ 31)
    (hl : input[2 * i]? = some l) (hr : input[2 * i + 1]? = some r) :
    stereoInt16Sample input 16000 i = some (averageInt16 l r) := by
  unfold stereoInt16Sample
  rw [inputIndex_16000 i (by omega)]
  dsimp only
  have e1 : mulUInt32 i 2 = 2 * i := by
    unfold mulUInt32
    rw [Nat.mod_eq_of_lt (by omega)]
    ring
  have e2 : addUInt32 (2 * i) 1 = 2 * i + 1 := by
    unfold addUInt32
    rw [Nat.mod_eq_of_lt (by omega)]
  rw [e1, e2, hl, hr]

/-- `ConvertStereoInt16ToMono16` at 16000 Hz: one output sample per frame, the truncated
mean of its two channels. -/
theorem ConvertStereoInt16ToMono16_16000 (input : List Int16) (F : ℕ) (hF : F ≤ 2 ^ 31)
    (hlen : 2 * F ≤ input.length) :
    ∃ out : List Sample, ConvertStereoInt16ToMono16 input F 16000 = some out ∧ out.length = F ∧
      ∀ i : ℕ, i < F → ∃ l r : Int16, input[2 * i]? = some l ∧ input[2 * i + 1]? = some r ∧
        out[i]? = some (some (Int.tdiv (l.val + r.val) 2)) ∧
        (l = r → out[i]? = some (some l.val)) := by
  refine ⟨(List.range F).map (stereoInt16Sample input 16000), ?_, by simp, ?_⟩
  · unfold ConvertStereoInt16ToMono16
    rw [outputFrames_16000 F (by omega)]
    rfl
  · intro i hi
    have h1 : 2 * i < input.length := by omega
    have h2 : 2 * i + 1 < input.length := by omega
    refine ⟨input[2 * i], input[2 * i + 1], List.getElem?_eq_getElem h1,
      List.getElem?_eq_getElem h2, ?_, ?_⟩
    · rw [List.getElem?_map, List.getElem?_range hi, Option.map_some',
        stereoInt16Sample_16000 input i _ _ (by omega) (List.getElem?_eq_getElem h1)
          (List.getElem?_eq_getElem h2), averageInt16_eq]
    · intro hlr
      rw [List.getElem?_map, List.getElem?_range hi, Option.map_some',
        stereoInt16Sample_16000 input i _ _ (by omega) (List.getElem?_eq_getElem h1)
          (List.getElem?_eq_getElem h2), ← hlr, averageInt16_self]

/-- C2 (amended): for a session whose native format is mono integer PCM (16000 Hz, 16 bits
included), every non-silent packet handled by the capture loop is dropped: the dispatch has
no mono int16 converter, nothing is written, the buffer is released and the loop goes on.
Frame-for-frame output at ratio 1 is what the stereo 16-bit format at 16000 Hz gives: `F`
frames (`F ≤ 2^31`) yield `F` samples, sample `i` being the truncated mean of the two
channels of frame `i`, hence the input sample itself when both channels carry it. -/
theorem C2_mono_int16_dropped :
    (∀ (pwfx : WAVEFORMATEX) (cap : ℕ) (p : Packet) (sa : Bool),
      pwfx.isPCM → pwfx.nChannels = 1 → ¬ (p.flags &&& AUDCLNT_BUFFERFLAGS_SILENT ≠ 0) →
      dispatch pwfx = none ∧ handlePacket pwfx cap p sa = ([], .continue) ∧
      ∀ (pollHr : ℤ) (len : ℕ) (bufferHr releaseHr : ℤ),
        ¬ (FAILED pollHr = true) → len ≠ 0 → ¬ (FAILED bufferHr = true) →
        ¬ (FAILED releaseHr = true) →
        loopBody pwfx cap ⟨pollHr, len, bufferHr, p, sa, releaseHr⟩ = ⟨[], true, .continue⟩) ∧
    (∀ (input : List Int16) (F : ℕ), F ≤ 2 ^ 31 → 2 * F ≤ input.length →
      ∃ out : List Sample, ConvertStereoInt16ToMono16 input F 16000 = some out ∧
        out.length = F ∧
        ∀ i : ℕ, i < F → ∃ l r : Int16, input[2 * i]? = some l ∧ input[2 * i + 1]? = some r ∧
          out[i]? = some (some (Int.tdiv (l.val + r.val) 2)) ∧
          (l = r → out[i]? = some (some l.val))) := by
  refine ⟨?_, ConvertStereoInt16ToMono16_16000⟩
  intro pwfx cap p sa hpcm hch hs
  have hd : dispatch pwfx = none := by
    rw [dispatch_none]
    refine ⟨?_, ?_, ?_⟩
    · rintro ⟨-, -, h⟩
      omega
    · rintro ⟨h1, h2, -⟩
      have hne : KSDATAFORMAT_SUBTYPE_PCM ≠ KSDATAFORMAT_SUBTYPE_IEEE_FLOAT := by decide
      have hne2 : WAVE_FORMAT_PCM ≠ WAVE_FORMAT_EXTENSIBLE := by decide
      rcases hpcm with h | h
      · exact hne (h.2.symm.trans h2)
      · exact hne2 (h.symm.trans h1)
    · rintro ⟨-, h, -⟩
      omega
  have hh := handlePacket_unsupported pwfx cap p sa hs hd
  refine ⟨hd, hh, ?_⟩
  intro pollHr len bufferHr releaseHr hp hl hb hr
  rw [loopBody_handled pwfx cap pollHr len bufferHr p sa releaseHr _ _ hp hl hb hh,
    if_pos rfl, if_neg hr]

/-- C2 (witness): the packet `1, 2, 3` in the format 16000 Hz, mono, 16-bit PCM. -/
theorem C2_mono_int16_dropped_witness :
    dispatch monoInt16Format = none ∧
      handlePacket monoInt16Format 16001 monoInt16Packet true = ([], .continue) ∧
      ∀ (pollHr : ℤ) (len : ℕ) (bufferHr releaseHr : ℤ),
        ¬ (FAILED pollHr = true) → len ≠ 0 → ¬ (FAILED bufferHr = true) →
        ¬ (FAILED releaseHr = true) →
        loopBody monoInt16Format 16001 ⟨pollHr, len, bufferHr, monoInt16Packet, true, releaseHr⟩ =
          ⟨[], true, .continue⟩ :=
  C2_mono_int16_dropped.1 monoInt16Format 16001 monoInt16Packet true
    (by unfold WAVEFORMATEX.isPCM; decide) (by decide) (by decide)

/-- C2 (counterexample): in the format 16000 Hz, mono, 16-bit PCM the non-silent packet
`1, 2, 3` is not emitted: the pass of the loop writes nothing. -/
theorem C2_counterexample :
    (loopBody monoInt16Format 16001 ⟨S_OK, 3, S_OK, monoInt16Packet, true, S_OK⟩).written = [] ∧
      (loopBody monoInt16Format 16001 ⟨S_OK, 3, S_OK, monoInt16Packet, true, S_OK⟩).written ≠
        [.samples [some 1, some 2, some 3]] := by
  have hh := handlePacket_unsupported monoInt16Format 16001 monoInt16Packet true (by decide)
    (by decide)
  have hb := loopBody_handled monoInt16Format 16001 S_OK 3 S_OK monoInt16Packet true S_OK _ _
    (by decide) (by decide) (by decide) hh
  rw [if_pos rfl, if_neg (by decide)] at hb
  rw [hb]
  exact ⟨rfl, by decide⟩

/-! ## Failures of the capture client -/

theorem loopBody_poll_failed (pwfx : WAVEFORMATEX) (cap : ℕ) (it : Iteration)
    (h : FAILED it.pollHr = true) : loopBody pwfx cap it = ⟨[], false, .break⟩ := by
  unfold loopBody
  rw [if_pos h]

theorem loopBody_acquire_failed (pwfx : WAVEFORMATEX) (cap : ℕ) (it : Iteration)
    (h₁ : ¬ (FAILED it.pollHr = true)) (h₂ : it.packetLength ≠ 0)
    (h₃ : FAILED it.bufferHr = true) : loopBody pwfx cap it = ⟨[], false, .break⟩ := by
  unfold loopBody
  rw [if_neg h₁, if_neg h₂, if_pos h₃]

/-- Whenever the loop is left, `CaptureLoop` returns `S_OK`. -/
theorem pump_returned (pwfx : WAVEFORMATEX) (cap : ℕ) (script : List Iteration) (hr : ℤ)
    (h : (pump pwfx cap script).2.2 = .returned hr) : hr = S_OK := by
  induction script with
  | nil => simp [pump] at h
  | cons it rest ih =>
    rcases hb : loopBody pwfx cap it with ⟨w, r, c⟩
    rw [pump_cons pwfx cap it rest w r c hb] at h
    cases c
    · exact ih h
    · simp only [Outcome.returned.injEq] at h
      exact h.symm
    · simp at h

/-- When initialisation and start succeed, `main` exits with code 0 as soon as the loop is
left. -/
theorem main_exit_code (env : Environment) (w : List Chunk) (k : ℕ) (hr : ℤ)
    (h₁ : ¬ (FAILED env.initHr = true)) (h₂ : ¬ (FAILED env.startHr = true))
    (h₃ : env.pwfx.nSamplesPerSec ≠ 0) (h₄ : env.bufferAllocated = true)
    (hp : pump env.pwfx (maxOutputFrames env.bufferFrameCount env.pwfx.nSamplesPerSec)
      env.script = (w, k, .returned hr)) :
    CaptureLoop (Initialize env).2 env.bufferAllocated env.script = (w, k, .returned hr) ∧
      main env = (w, .returned 0) := by
  have hinit : Initialize env = (S_OK, ⟨env.pwfx, env.bufferFrameCount, true⟩) := by
    unfold Initialize
    rw [if_neg h₁]
  have hloop : CaptureLoop (Initialize env).2 env.bufferAllocated env.script =
      (w, k, .returned hr) := by
    rw [hinit, h₄]
    dsimp only
    rw [CaptureLoop_running env.pwfx env.bufferFrameCount env.script h₃, hp]
  refine ⟨hloop, ?_⟩
  unfold main
  dsimp only
  rw [hloop, hinit]
  dsimp only
  rw [if_neg (by decide)]
  have hstart : StartCapture ⟨env.pwfx, env.bufferFrameCount, true⟩ env = env.startHr := by
    unfold StartCapture
    simp
  rw [hstart, if_neg h₂]

theorem stereoInt16Packet_converted :
    Converter.run .stereoInt16 stereoInt16Format stereoInt16Packet = some [some 6] := by
  have hl : stereoInt16Packet.int16Data[2 * 0]? = some ⟨5, by decide⟩ := rfl
  have hr : stereoInt16Packet.int16Data[2 * 0 + 1]? = some ⟨7, by decide⟩ := rfl
  have hs := stereoInt16Sample_16000 stereoInt16Packet.int16Data 0 _ _ (by norm_num) hl hr
  have ha : averageInt16 ⟨5, by decide⟩ ⟨7, by decide⟩ = 6 := by decide
  rw [ha] at hs
  show ConvertStereoInt16ToMono16 stereoInt16Packet.int16Data 1 16000 = some [some 6]
  unfold ConvertStereoInt16ToMono16
  rw [outputFrames_16000 1 (by norm_num)]
  simp only [Option.map_some', List.range_succ, List.range_zero, List.nil_append,
    List.map_cons, List.map_nil, hs]

/-- C8 (the code at the failing inputs): in three runs where initialisation and start
succeed and the first `GetNextPacketSize`, `GetBuffer` or `ReleaseBuffer` fails with
`E_FAIL`, the loop stops in its first pass (the second pass of the script is not started),
yet `CaptureLoop` returns `S_OK` and `main` exits with code 0. -/
theorem C8_failure_exits_zero :
    FAILED E_FAIL = true ∧ FAILED S_OK = false ∧
    CaptureLoop (Initialize pollFailureRun).2 true pollFailureRun.script =
      ([], 1, .returned S_OK) ∧
    main pollFailureRun = ([], .returned 0) ∧
    CaptureLoop (Initialize acquireFailureRun).2 true acquireFailureRun.script =
      ([], 1, .returned S_OK) ∧
    main acquireFailureRun = ([], .returned 0) ∧
    CaptureLoop (Initialize releaseFailureRun).2 true releaseFailureRun.script =
      ([.samples [some 6]], 1, .returned S_OK) ∧
    main releaseFailureRun = ([.samples [some 6]], .returned 0) := by
  have hcap : maxOutputFrames 16000 16000 = 16001 := by decide
  have hpoll : pump stereoInt16Format 16001 pollFailureRun.script = ([], 1, .returned S_OK) := by
    have hb := loopBody_poll_failed stereoInt16Format 16001
      ⟨E_FAIL, 0, S_OK, stereoInt16Packet, true, S_OK⟩ (by decide)
    exact pump_cons stereoInt16Format 16001 _ _ _ _ _ hb
  have hacq : pump stereoInt16Format 16001 acquireFailureRun.script = ([], 1, .returned S_OK) := by
    have hb := loopBody_acquire_failed stereoInt16Format 16001
      ⟨S_OK, 1, E_FAIL, stereoInt16Packet, true, S_OK⟩ (by decide) (by decide) (by decide)
    exact pump_cons stereoInt16Format 16001 _ _ _ _ _ hb
  have hrel : pump stereoInt16Format 16001 releaseFailureRun.script =
      ([.samples [some 6]], 1, .returned S_OK) := by
    have hh := handlePacket_converted stereoInt16Format 16001 stereoInt16Packet true .stereoInt16
      [some 6] (by decide) (by decide) stereoInt16Packet_converted
    rw [if_pos (by decide)] at hh
    have hb := loopBody_handled stereoInt16Format 16001 S_OK 1 S_OK stereoInt16Packet true E_FAIL
      _ _ (by decide) (by decide) (by decide) hh
    rw [if_pos rfl, if_pos (by decide)] at hb
    exact pump_cons stereoInt16Format 16001 _ _ _ _ _ hb
  have m1 := main_exit_code pollFailureRun [] 1 S_OK (by decide) (by decide) (by decide) rfl
    (by rw [show maxOutputFrames pollFailureRun.bufferFrameCount
      pollFailureRun.pwfx.nSamplesPerSec = 16001 from hcap]; exact hpoll)
  have m2 := main_exit_code acquireFailureRun [] 1 S_OK (by decide) (by decide) (by decide) rfl
    (by rw [show maxOutputFrames acquireFailureRun.bufferFrameCount
      acquireFailureRun.pwfx.nSamplesPerSec = 16001 from hcap]; exact hacq)
  have m3 := main_exit_code releaseFailureRun [.samples [some 6]] 1 S_OK (by decide)
    (by decide) (by decide) rfl
    (by rw [show maxOutputFrames releaseFailureRun.bufferFrameCount
      releaseFailureRun.pwfx.nSamplesPerSec = 16001 from hcap]; exact hrel)
  exact ⟨by decide, by decide, m1.1, m1.2, m2.1, m2.2, m3.1, m3.2⟩

/-! ## The range of the emitted samples -/

/-- Lines 120-122 and 164-166 on a datum that is not a NaN, step by step: the clamp is a
number of `[-1, 1]`, its product with `32767.0f` a number of `[-32767, 32767]`, and the
conversion to `int16_t` truncates it. -/
theorem quantize_range (m : FP) (hm : m ≠ FP.nan) :
    ∃ c z : ℚ, clamp m = FP.fin c ∧ -1 ≤ c ∧ c ≤ 1 ∧
      scaled (.fin c) = FP.fin z ∧ -32767 ≤ z ∧ z ≤ 32767 ∧
      -32767 ≤ truncZ z ∧ truncZ z ≤ 32767 ∧ quantize m = some (truncZ z) := by
  obtain ⟨c, hc, hc1, hc2⟩ := clamp_spec m hm
  obtain ⟨z, hz, hz1, hz2⟩ := scaled_bounds c hc1 hc2
  obtain ⟨h1, h2, h3⟩ := floatToInt16_bounds z hz1 hz2
  refine ⟨c, z, hc, hc1, hc2, hz, hz1, hz2, h2, h3, ?_⟩
  unfold quantize
  rw [hc, hz, h1]

/-- One sample of `ConvertStereoInt16ToMono16`. -/
theorem stereoInt16Sample_spec (input : List Int16) (F R n i : ℕ) (hR0 : 0 < R)
    (hR : R < 2 ^ 32) (hF : F < 2 ^ 32) (hn : outputFrames F R = some n) (hi : i < n)
    (hlen : 2 * F ≤ input.length) :
    ∃ (k : ℕ) (left right : Int16), inputIndex i R = some k ∧ k < F ∧
      input[mulUInt32 k 2]? = some left ∧
      input[addUInt32 (mulUInt32 k 2) 1]? = some right ∧
      stereoInt16Sample input R i = some (averageInt16 left right) := by
  obtain ⟨k, hk, hkF⟩ := inputIndex_lt F R n i hR0 hR hF hn hi
  obtain ⟨h1, h2⟩ := mulUInt32_two_lt k F hkF
  have h3 : mulUInt32 k 2 < input.length := lt_of_lt_of_le h1 hlen
  have h4 : addUInt32 (mulUInt32 k 2) 1 < input.length := lt_of_lt_of_le h2 hlen
  refine ⟨k, input[mulUInt32 k 2], input[addUInt32 (mulUInt32 k 2) 1], hk, hkF,
    List.getElem?_eq_getElem h3, List.getElem?_eq_getElem h4, ?_⟩
  unfold stereoInt16Sample
  rw [hk]
  dsimp only
  rw [List.getElem?_eq_getElem h3, List.getElem?_eq_getElem h4]

/-- One sample of `ConvertStereoFloat32ToMono16` on a packet of finite samples, as a
quantised downmix. -/
theorem stereoFloatSample_quantize (input : List FP) (F R n i : ℕ) (hR0 : 0 < R)
    (hR : R < 2 ^ 32) (hF : F < 2 ^ 32) (hn : outputFrames F R = some n) (hi : i < n)
    (hlen : 2 * F ≤ input.length) (hfin : ∀ x ∈ input, x.isFinite = true) :
    ∃ (k : ℕ) (a b : ℚ), inputIndex i R = some k ∧ k < F ∧
      input[mulUInt32 k 2]? = some (FP.fin a) ∧
      input[addUInt32 (mulUInt32 k 2) 1]? = some (FP.fin b) ∧
      stereoFloatSample input R i = quantize (downmix (.fin a) (.fin b)) := by
  obtain ⟨k, hk, hkF⟩ := inputIndex_lt F R n i hR0 hR hF hn hi
  obtain ⟨h1, h2⟩ := mulUInt32_two_lt k F hkF
  obtain ⟨a, ha⟩ := getElem?_fin_of_finite input _ (lt_of_lt_of_le h1 hlen) hfin
  obtain ⟨b, hb⟩ := getElem?_fin_of_finite input _ (lt_of_lt_of_le h2 hlen) hfin
  refine ⟨k, a, b, hk, hkF, ha, hb, ?_⟩
  unfold stereoFloatSample
  rw [hk]
  dsimp only
  rw [ha, hb]

/-- One sample of `ConvertMonoFloat32ToMono16` on a packet of finite samples. -/
theorem monoFloatSample_quantize (input : List FP) (F R n i : ℕ) (hR0 : 0 < R)
    (hR : R < 2 ^ 32) (hF : F < 2 ^ 32) (hn : outputFrames F R = some n) (hi : i < n)
    (hlen : F ≤ input.length) (hfin : ∀ x ∈ input, x.isFinite = true) :
    ∃ (k : ℕ) (a : ℚ), inputIndex i R = some k ∧ k < F ∧ input[k]? = some (FP.fin a) ∧
      monoFloatSample input R i = quantize (.fin a) := by
  obtain ⟨k, hk, hkF⟩ := inputIndex_lt F R n i hR0 hR hF hn hi
  obtain ⟨a, ha⟩ := getElem?_fin_of_finite input k (lt_of_lt_of_le hkF hlen) hfin
  refine ⟨k, a, hk, hkF, ha, ?_⟩
  unfold monoFloatSample
  rw [hk]
  dsimp only
  rw [ha]

/-- C7: every emitted sample lies in the `int16_t` range and the narrowing conversion does
not change it.  For every packet of `F` stereo `int16_t` frames at a rate `R > 0` (with
`floor(F * 16000 / R)` a `UINT32`), `ConvertStereoInt16ToMono16` returns, and each of the
samples it emits is the 32-bit value `(left + right) / 2` (truncating division) of the two
samples it reads, a value of `[-32768, 32767]` that the conversion to `int16_t` leaves
unchanged.  For every packet of finite `float` samples the two float converters return, and
each of the samples they emit is the truncation of `clamp(mono) * 32767.0f`, where the clamp
is a number of `[-1, 1]` and the product a number of `[-32767, 32767]` before it is
truncated.  The same bounds hold for all `int16_t` pairs and all finite `float` values,
whether a packet holds them or not. -/
theorem C7_samples_in_int16_range :
    (∀ (input : List Int16) (F R : ℕ), 0 < R → R < 2 ^ 32 → F < 2 ^ 32 →
      specOutputFrames F R < 2 ^ 32 → 2 * F ≤ input.length →
      ∃ out : List Sample, ConvertStereoInt16ToMono16 input F R = some out ∧
        outputFrames F R = some out.length ∧
        ∀ i : ℕ, i < out.length → ∃ (k : ℕ) (left right : Int16),
          inputIndex i R = some k ∧ k < F ∧
          input[mulUInt32 k 2]? = some left ∧
          input[addUInt32 (mulUInt32 k 2) 1]? = some right ∧
          -32768 ≤ Int.tdiv (left.val + right.val) 2 ∧
          Int.tdiv (left.val + right.val) 2 ≤ 32767 ∧
          toInt16 (Int.tdiv (left.val + right.val) 2) = Int.tdiv (left.val + right.val) 2 ∧
          out[i]? = some (some (Int.tdiv (left.val + right.val) 2))) ∧
    (∀ (input : List FP) (F R : ℕ), 0 < R → R < 2 ^ 32 → F < 2 ^ 32 →
      specOutputFrames F R < 2 ^ 32 → 2 * F ≤ input.length →
      (∀ x ∈ input, x.isFinite = true) →
      ∃ out : List Sample, ConvertStereoFloat32ToMono16 input F R = some out ∧
        outputFrames F R = some out.length ∧
        ∀ i : ℕ, i < out.length → ∃ (k : ℕ) (a b c z : ℚ),
          inputIndex i R = some k ∧ k < F ∧
          input[mulUInt32 k 2]? = some (FP.fin a) ∧
          input[addUInt32 (mulUInt32 k 2) 1]? = some (FP.fin b) ∧
          clamp (downmix (.fin a) (.fin b)) = FP.fin c ∧ -1 ≤ c ∧ c ≤ 1 ∧
          scaled (.fin c) = FP.fin z ∧ -32767 ≤ z ∧ z ≤ 32767 ∧
          -32767 ≤ truncZ z ∧ truncZ z ≤ 32767 ∧
          out[i]? = some (some (truncZ z))) ∧
    (∀ (input : List FP) (F R : ℕ), 0 < R → R < 2 ^ 32 → F < 2 ^ 32 →
      specOutputFrames F R < 2 ^ 32 → F ≤ input.length →
      (∀ x ∈ input, x.isFinite = true) →
      ∃ out : List Sample, ConvertMonoFloat32ToMono16 input F R = some out ∧
        outputFrames F R = some out.length ∧
        ∀ i : ℕ, i < out.length → ∃ (k : ℕ) (a c z : ℚ),
          inputIndex i R = some k ∧ k < F ∧ input[k]? = some (FP.fin a) ∧
          clamp (.fin a) = FP.fin c ∧ -1 ≤ c ∧ c ≤ 1 ∧
          scaled (.fin c) = FP.fin z ∧ -32767 ≤ z ∧ z ≤ 32767 ∧
          -32767 ≤ truncZ z ∧ truncZ z ≤ 32767 ∧
          out[i]? = some (some (truncZ z))) ∧
    (∀ left right : Int16,
      -32768 ≤ Int.tdiv (left.val + right.val) 2 ∧ Int.tdiv (left.val + right.val) 2 ≤ 32767 ∧
        averageInt16 left right = Int.tdiv (left.val + right.val) 2) ∧
    (∀ left right : ℚ, ∃ z : ℚ,
      scaled (clamp (downmix (.fin left) (.fin right))) = FP.fin z ∧ -32767 ≤ z ∧ z ≤ 32767 ∧
        quantize (downmix (.fin left) (.fin right)) = some (truncZ z) ∧
        -32767 ≤ truncZ z ∧ truncZ z ≤ 32767) ∧
    (∀ sample : ℚ, ∃ z : ℚ,
      scaled (clamp (.fin sample)) = FP.fin z ∧ -32767 ≤ z ∧ z ≤ 32767 ∧
        quantize (.fin sample) = some (truncZ z) ∧ -32767 ≤ truncZ z ∧ truncZ z ≤ 32767) := by
  refine ⟨?_, ?_, ?_, ?_, ?_, ?_⟩
  · intro input F R hR0 hR hF hQ hlen
    obtain ⟨n, hn, -, -, -⟩ := outputFrames_count F R hR0 hR hF hQ
    refine ⟨(List.range n).map (stereoInt16Sample input R), ?_, ?_, ?_⟩
    · unfold ConvertStereoInt16ToMono16
      rw [hn]
      rfl
    · rw [List.length_map, List.length_range]
      exact hn
    · intro i hi
      rw [List.length_map, List.length_range] at hi
      obtain ⟨k, l, r, hk, hkF, hl, hr, hs⟩ :=
        stereoInt16Sample_spec input F R n i hR0 hR hF hn hi hlen
      have hb := tdiv_two_bounds (l.val + r.val)
        (by have := l.property.1; have := r.property.1; omega)
        (by have := l.property.2; have := r.property.2; omega)
      refine ⟨k, l, r, hk, hkF, hl, hr, hb.1, hb.2, toInt16_of_mem _ hb.1 hb.2, ?_⟩
      rw [List.getElem?_map, List.getElem?_range hi, Option.map_some', hs, averageInt16_eq]
  · intro input F R hR0 hR hF hQ hlen hfin
    obtain ⟨n, hn, -, -, -⟩ := outputFrames_count F R hR0 hR hF hQ
    refine ⟨(List.range n).map (stereoFloatSample input R), ?_, ?_, ?_⟩
    · unfold ConvertStereoFloat32ToMono16
      rw [hn]
      rfl
    · rw [List.length_map, List.length_range]
      exact hn
    · intro i hi
      rw [List.length_map, List.length_range] at hi
      obtain ⟨k, a, b, hk, hkF, ha, hb, hs⟩ :=
        stereoFloatSample_quantize input F R n i hR0 hR hF hn hi hlen hfin
      obtain ⟨c, z, hc, hc1, hc2, hz, hz1, hz2, ht1, ht2, hq⟩ :=
        quantize_range _ (downmix_ne_nan a b)
      refine ⟨k, a, b, c, z, hk, hkF, ha, hb, hc, hc1, hc2, hz, hz1, hz2, ht1, ht2, ?_⟩
      rw [List.getElem?_map, List.getElem?_range hi, Option.map_some', hs, hq]
  · intro input F R hR0 hR hF hQ hlen hfin
    obtain ⟨n, hn, -, -, -⟩ := outputFrames_count F R hR0 hR hF hQ
    refine ⟨(List.range n).map (monoFloatSample input R), ?_, ?_, ?_⟩
    · unfold ConvertMonoFloat32ToMono16
      rw [hn]
      rfl
    · rw [List.length_map, List.length_range]
      exact hn
    · intro i hi
      rw [List.length_map, List.length_range] at hi
      obtain ⟨k, a, hk, hkF, ha, hs⟩ :=
        monoFloatSample_quantize input F R n i hR0 hR hF hn hi hlen hfin
      obtain ⟨c, z, hc, hc1, hc2, hz, hz1, hz2, ht1, ht2, hq⟩ :=
        quantize_range (.fin a) (by simp)
      refine ⟨k, a, c, z, hk, hkF, ha, hc, hc1, hc2, hz, hz1, hz2, ht1, ht2, ?_⟩
      rw [List.getElem?_map, List.getElem?_range hi, Option.map_some', hs, hq]
  · intro left right
    have hb := tdiv_two_bounds (left.val + right.val)
      (by have := left.property.1; have := right.property.1; omega)
      (by have := left.property.2; have := right.property.2; omega)
    exact ⟨hb.1, hb.2, toInt16_of_mem _ hb.1 hb.2⟩
  · intro left right
    exact quantize_spec _ (downmix_ne_nan left right)
  · intro sample
    exact quantize_spec _ (by simp)

/-- C7 (witness): the packet of one stereo `int16_t` frame `(5, 7)` at 16000 Hz. -/
theorem C7_samples_in_int16_range_witness :
    ∃ out : List Sample,
      ConvertStereoInt16ToMono16 stereoInt16Packet.int16Data 1 16000 = some out ∧
      outputFrames 1 16000 = some out.length ∧
      ∀ i : ℕ, i < out.length → ∃ (k : ℕ) (left right : Int16),
        inputIndex i 16000 = some k ∧ k < 1 ∧
        stereoInt16Packet.int16Data[mulUInt32 k 2]? = some left ∧
        stereoInt16Packet.int16Data[addUInt32 (mulUInt32 k 2) 1]? = some right ∧
        -32768 ≤ Int.tdiv (left.val + right.val) 2 ∧
        Int.tdiv (left.val + right.val) 2 ≤ 32767 ∧
        toInt16 (Int.tdiv (left.val + right.val) 2) = Int.tdiv (left.val + right.val) 2 ∧
        out[i]? = some (some (Int.tdiv (left.val + right.val) 2)) :=
  C7_samples_in_int16_range.1 stereoInt16Packet.int16Data 1 16000 (by norm_num) (by norm_num)
    (by norm_num) (by decide) (by decide)

end AudioTap
